import Mathlib

/-!
Shallow embedding of src/nom_parser.rs (lopdf's combined pom/nom PDF parser).

Both combinator engines used by the source (pom's position-tracking
backtracking engine and nom's consumed-prefix engine, bridged by nom_to_pom)
are modelled by one parser type: a function from the remaining input (a byte
list) and the current absolute position to a result that is either success
(value, remaining input, new position), an ordinary recoverable failure
(covering both pom Mismatch/Incomplete and nom errors, which the bridge turns
into pom errors and which alternation recovers from), or a fatal failure
which alternation does not recover from.  Fatal covers both a Rust panic
(Option::expect) and a failure under pom's .expect, whose Expect error
aborts the ordered choice instead of letting it retry the next alternative.
Bytes are modelled as Nat; machine-integer casts are explicit mod-2^w
operations.
-/

namespace LopdfNom

inductive PResult (α : Type) : Type where
  | ok (a : α) (rest : List Nat) (pos : Nat)
  | err
  | fatal
deriving DecidableEq, Repr

def Parser (α : Type) : Type := List Nat → Nat → PResult α

def pureP {α : Type} (a : α) : Parser α := fun l pos => .ok a l pos

def bindP {α β : Type} (p : Parser α) (f : α → Parser β) : Parser β := fun l pos =>
  match p l pos with
  | .ok a rest pos1 => f a rest pos1
  | .err => .err
  | .fatal => .fatal

def mapP {α β : Type} (p : Parser α) (f : α → β) : Parser β :=
  bindP p (fun a => pureP (f a))

/-- pom p - q : parse p then q, keep p's value. -/
def seqL {α β : Type} (p : Parser α) (q : Parser β) : Parser α :=
  bindP p (fun a => mapP q (fun _ => a))

/-- pom p * q : parse p then q, keep q's value. -/
def seqR {α β : Type} (p : Parser α) (q : Parser β) : Parser β :=
  bindP p (fun _ => q)

/-- pom p + q : parse p then q, keep both values. -/
def pairP {α β : Type} (p : Parser α) (q : Parser β) : Parser (α × β) :=
  bindP p (fun a => mapP q (fun b => (a, b)))

/-- pom p | q and nom alt: try p, and on a recoverable failure retry q from the
same position.  A fatal failure (Rust panic) propagates. -/
def altP {α : Type} (p q : Parser α) : Parser α := fun l pos =>
  match p l pos with
  | .ok a rest pos1 => .ok a rest pos1
  | .err => q l pos
  | .fatal => .fatal

/-- pom convert / nom map_res / map_opt: failure of f is a recoverable error. -/
def convertP {α β : Type} (p : Parser α) (f : α → Option β) : Parser β := fun l pos =>
  match p l pos with
  | .ok a rest pos1 =>
    (match f a with
     | some b => .ok b rest pos1
     | none => .err)
  | .err => .err
  | .fatal => .fatal

/-- map whose function may panic (Rust Option::expect inside a map closure):
failure of f is fatal, not recoverable. -/
def mapHard {α β : Type} (p : Parser α) (f : α → Option β) : Parser β := fun l pos =>
  match p l pos with
  | .ok a rest pos1 =>
    (match f a with
     | some b => .ok b rest pos1
     | none => .fatal)
  | .err => .err
  | .fatal => .fatal

/-- pom .expect: a recoverable failure of p becomes a fatal Expect error
that the surrounding ordered choice does not retry past. -/
def expectP {α : Type} (p : Parser α) : Parser α := fun l pos =>
  match p l pos with
  | .ok a rest pos1 => .ok a rest pos1
  | .err => .fatal
  | .fatal => .fatal

def optP {α : Type} (p : Parser α) : Parser (Option α) := fun l pos =>
  match p l pos with
  | .ok a rest pos1 => .ok (some a) rest pos1
  | .err => .ok none l pos
  | .fatal => .fatal

/-- pom sym. -/
def symP (b : Nat) : Parser Nat := fun l pos =>
  match l with
  | c :: rest => if c = b then .ok c rest (pos + 1) else .err
  | [] => .err

/-- pom is_a: one byte of a character class. -/
def satisfyP (cls : Nat → Bool) : Parser Nat := fun l pos =>
  match l with
  | c :: rest => if cls c then .ok c rest (pos + 1) else .err
  | [] => .err

/-- pom one_of: one byte from a byte set. -/
def oneOfP (s : List Nat) : Parser Nat := satisfyP (fun c => s.contains c)

/-- pom none_of. -/
def noneOfP (s : List Nat) : Parser Nat := satisfyP (fun c => !(s.contains c))

/-- pom seq / nom tag: a literal byte sequence. -/
def seqNatsP (s : List Nat) : Parser (List Nat) := fun l pos =>
  if s.isPrefixOf l then .ok s (l.drop s.length) (pos + s.length) else .err

/-- pom take / nom take: exactly n bytes. -/
def takeN (n : Nat) : Parser (List Nat) := fun l pos =>
  if n ≤ l.length then .ok (l.take n) (l.drop n) (pos + n) else .err

/-- nom take_while. -/
def takeWhileP (cls : Nat → Bool) : Parser (List Nat) := fun l pos =>
  let t := l.takeWhile cls
  .ok t (l.drop t.length) (pos + t.length)

/-- nom take_while1. -/
def takeWhile1P (cls : Nat → Bool) : Parser (List Nat) := fun l pos =>
  let t := l.takeWhile cls
  if t.length = 0 then .err else .ok t (l.drop t.length) (pos + t.length)

/-- nom take_while_m_n: up to n bytes of the class, at least m. -/
def takeWhileMN (m n : Nat) (cls : Nat → Bool) : Parser (List Nat) := fun l pos =>
  let t := (l.takeWhile cls).take n
  if m ≤ t.length then .ok t (l.drop t.length) (pos + t.length) else .err

/-- pom empty().pos(): succeed without consuming, returning the position. -/
def posP : Parser Nat := fun l pos => .ok pos l pos

/-- Greedy repetition loop shared by pom repeat and nom many0.  The fuel
argument only bounds the iteration count for termination; every repeated
parser in this grammar consumes at least one byte per success, so with fuel
(remaining length + 1) the loop always stops at a recoverable failure of the
item parser, exactly as in the source. -/
def repeatCore {α : Type} (p : Parser α) : Nat → Parser (List α)
  | 0 => pureP []
  | fuel + 1 => fun l pos =>
    match p l pos with
    | .ok a rest pos1 =>
      (match repeatCore p fuel rest pos1 with
       | .ok as rest1 pos2 => .ok (a :: as) rest1 pos2
       | .err => .err
       | .fatal => .fatal)
    | .err => .ok [] l pos
    | .fatal => .fatal

def repeat0 {α : Type} (p : Parser α) : Parser (List α) := fun l pos =>
  repeatCore p (l.length + 1) l pos

def repeat1 {α : Type} (p : Parser α) : Parser (List α) := fun l pos =>
  match repeat0 p l pos with
  | .ok as rest pos1 => if as.isEmpty then .err else .ok as rest pos1
  | .err => .err
  | .fatal => .fatal

/-- pom collect: the consumed byte slice of a successful parse. -/
def collectP {α : Type} (p : Parser α) : Parser (List Nat) := fun l pos =>
  match p l pos with
  | .ok _ rest pos1 => .ok (l.take (pos1 - pos)) rest pos1
  | .err => .err
  | .fatal => .fatal

/- Character classes from the source. -/

/-- is_whitespace: space, tab, LF, CR, NUL, form feed. -/
def is_whitespace (c : Nat) : Bool :=
  c = 32 || c = 9 || c = 10 || c = 13 || c = 0 || c = 12

/-- is_delimiter: ( ) < > [ ] braces / %. -/
def is_delimiter (c : Nat) : Bool :=
  c = 40 || c = 41 || c = 60 || c = 62 || c = 91 || c = 93 ||
  c = 123 || c = 125 || c = 47 || c = 37

def is_regular (c : Nat) : Bool := !(is_whitespace c) && !(is_delimiter c)

/-- u8::is_ascii_digit. -/
def isDigitB (c : Nat) : Bool := 48 ≤ c && c ≤ 57

/-- u8::is_ascii_hexdigit. -/
def isHexDigitB (c : Nat) : Bool :=
  (48 ≤ c && c ≤ 57) || (97 ≤ c && c ≤ 102) || (65 ≤ c && c ≤ 70)

def isOctDigitB (c : Nat) : Bool := 48 ≤ c && c ≤ 55

/-- pom char_class::alpha: ASCII alphabetic. -/
def isAlphaB (c : Nat) : Bool := (65 ≤ c && c ≤ 90) || (97 ≤ c && c ≤ 122)

def digitNats : List Nat := [48, 49, 50, 51, 52, 53, 54, 55, 56, 57]

/-- Value of an ASCII decimal digit string. -/
def digitsVal (ds : List Nat) : Nat := ds.foldl (fun acc c => 10 * acc + (c - 48)) 0

/- Lexical layer. -/

/-- eol: CRLF or LF canonicalized to LF, bare CR preserved. -/
def eol : Parser Nat :=
  altP (mapP (seqNatsP [13, 10]) (fun _ => 10))
    (altP (mapP (seqNatsP [10]) (fun _ => 10))
      (mapP (seqNatsP [13]) (fun _ => 13)))

/-- comment: percent sign through end of line. -/
def comment : Parser Unit :=
  mapP (seqL (seqR (seqNatsP [37]) (takeWhileP (fun c => !(c = 13 || c = 10)))) eol)
    (fun _ => ())

def white_space : Parser Unit := mapP (takeWhileP is_whitespace) (fun _ => ())

/-- space: runs of whitespace interleaved with comments. -/
def space : Parser Unit :=
  mapP (repeat0 (altP (mapP (takeWhile1P is_whitespace) (fun _ => ())) comment))
    (fun _ => ())

/-- i64::from_str applied to an optional minus sign and a digit-run value:
fails exactly on 64-bit signed overflow. -/
def i64OfParts (neg : Bool) (m : Nat) : Option Int :=
  let v : Int := if neg then -(m : Int) else (m : Int)
  if -(2 ^ 63) ≤ v ∧ v < 2 ^ 63 then some v else none

/-- integer: optional sign, then digits, parsed as i64 (overflow fails). -/
def integer : Parser Int :=
  bindP (optP (oneOfP [43, 45])) (fun sign =>
    convertP (takeWhile1P isDigitB) (fun ds =>
      i64OfParts (sign == some 45) (digitsVal ds)))

/-- The value produced by f64::from_str, modelled as the exact decimal
literal it was given: a sign, the integer-part digit value, the
fraction-part digit value and the number of fraction digits.  Rounding the
literal to binary floating point is out of scope; the denoted rational is
DecLit.toRat. -/
structure DecLit : Type where
  neg : Bool
  ip : Nat
  fp : Nat
  fdigits : Nat
deriving DecidableEq, Repr

/-- The exact rational value of a decimal literal. -/
def DecLit.toRat (d : DecLit) : ℚ :=
  (if d.neg then -1 else 1) * ((d.ip : ℚ) + (d.fp : ℚ) / (10 : ℚ) ^ d.fdigits)

def decCore (s : List Nat) : Option DecLit :=
  let ip := s.takeWhile isDigitB
  match s.drop ip.length with
  | [] => if ip.isEmpty then none else some ⟨false, digitsVal ip, 0, 0⟩
  | 46 :: fr =>
    if fr.all isDigitB then some ⟨false, digitsVal ip, digitsVal fr, fr.length⟩ else none
  | _ => none

/-- Model of f64::from_str on the collected slice.  The grammar only feeds
it strings of the shape sign? (digits+ dot digits* | dot digits+), on which
Rust's conversion never fails. -/
def decOfNats (s : List Nat) : Option DecLit :=
  match s with
  | 45 :: rest => (decCore rest).map (fun d => { d with neg := true })
  | 43 :: rest => decCore rest
  | _ => decCore s

/-- real: optional sign, then digits with a mandatory decimal point
(digits+ dot digits* or dot digits+); the collected slice is converted. -/
def real : Parser DecLit :=
  convertP
    (collectP
      (pairP (optP (oneOfP [43, 45]))
        (altP
          (seqL (seqR (repeat1 (oneOfP digitNats)) (symP 46)) (repeat0 (oneOfP digitNats)))
          (seqL (symP 46) (repeat1 (oneOfP digitNats))))))
    decOfNats

def hexVal (c : Nat) : Nat :=
  if c ≤ 57 then c - 48 else if c ≤ 70 then c - 55 else c - 87

/-- hex_char: exactly two hex digits, decoded to one byte. -/
def hex_char : Parser Nat :=
  convertP (takeWhileMN 2 2 isHexDigitB)
    (fun ds => some (ds.foldl (fun a c => 16 * a + hexVal c) 0))

def octVal (ds : List Nat) : Nat := ds.foldl (fun a c => 8 * a + (c - 48)) 0

/-- oct_char: one to three bytes scanned with the hex-digit class (the
source's quirk), then converted in base 8 (failing on digits 8-9 or a-f),
truncated to a byte. -/
def oct_char : Parser Nat :=
  convertP (takeWhileMN 1 3 isHexDigitB)
    (fun ds => if ds.all isOctDigitB then some (octVal ds % 256) else none)

/-- name: slash, then regular characters, with hash-plus-two-hex-digits
escapes; a hash that does not start a valid escape stops the name. -/
def name : Parser (List Nat) :=
  seqR (seqNatsP [47])
    (repeat0 (altP (seqR (seqNatsP [35]) hex_char)
      (convertP (takeN 1) (fun c =>
        match c with
        | [b] => if b ≠ 35 ∧ is_regular b then some b else none
        | _ => none))))

/-- escape sequence body after the backslash: named escapes, octal escapes,
or a line continuation (escaped EOL) contributing no byte. -/
def escape_sequenceCore : Parser (Option Nat) :=
  seqR (seqNatsP [92])
    (altP
      (mapP (convertP (takeN 1) (fun c =>
        match c with
        | [b] =>
          if b = 40 ∨ b = 41 then some b
          else if b = 110 then some 10
          else if b = 114 then some 13
          else if b = 116 then some 9
          else if b = 98 then some 8
          else if b = 102 then some 12
          else if b = 92 then some 92
          else none
        | _ => none)) some)
      (altP (mapP oct_char some) (mapP eol (fun _ => (none : Option Nat)))))

def escape_sequence : Parser (List Nat) :=
  mapP escape_sequenceCore (fun c =>
    match c with
    | some b => [b]
    | none => [])

/-- One segment of a literal string body: a run of plain bytes, an escape
sequence, or a nested balanced-parenthesis substring. -/
def litSeg (nested : Parser (List Nat)) : Parser (List Nat) :=
  altP (repeat1 (noneOfP [92, 40, 41])) (altP escape_sequence nested)

/-- nested_literal_string, recursion made structural on a fuel count; each
nesting level consumes its opening parenthesis first, so fuel (remaining
length + 1) at the entry point is never exhausted. -/
def nested_literal_stringCore : Nat → Parser (List Nat)
  | 0 => fun _ _ => .err
  | fuel + 1 =>
    mapP (seqL (seqR (symP 40) (repeat0 (litSeg (nested_literal_stringCore fuel)))) (symP 41))
      (fun segs => 40 :: segs.flatten ++ [41])

def nested_literal_string : Parser (List Nat) := fun l pos =>
  nested_literal_stringCore (l.length + 1) l pos

/-- literal_string: parenthesized, segments concatenated, outer delimiters
dropped, nested substrings reproduced with their own parentheses. -/
def literal_string : Parser (List Nat) :=
  mapP (seqL (seqR (symP 40) (repeat0 (litSeg nested_literal_string))) (symP 41))
    (fun segs => segs.flatten)

/-- hexadecimal_string: angle brackets around whitespace-preceded hex pairs. -/
def hexadecimal_string : Parser (List Nat) :=
  seqL (seqR (symP 60) (repeat0 (seqR white_space hex_char)))
    (seqR white_space (symP 62))

/- Object model (super::{Dictionary, Object, ObjectId, Stream, StringFormat},
crate::xref::*). -/

inductive StringFormat : Type where
  | literal
  | hexadecimal
deriving DecidableEq, Repr

/-- Modelled from the spec: XrefEntry lives in crate::xref (not under src/);
Normal{offset, generation} is the only variant this parser produces. -/
inductive XrefEntry : Type where
  | normal (offset : Nat) (generation : Nat)
deriving DecidableEq, Repr

/-- Modelled from the spec: Xref lives in crate::xref (not under src/); a
mapping from object number to entry plus a declared size; insert overwrites
an existing key. -/
structure Xref : Type where
  entries : List (Nat × XrefEntry)
  size : Nat
deriving DecidableEq, Repr

inductive StreamData : Type where
  | bytes (data : List Nat)
  | deferred (pos : Nat)
deriving DecidableEq, Repr

/-- The Object sum type; Stream is inlined as its dictionary plus either a
materialized payload or the deferred payload-start position. -/
inductive Object : Type where
  | null
  | boolean (b : Bool)
  | integer (i : Int)
  | real (r : DecLit)
  | string (s : List Nat) (fmt : StringFormat)
  | name (n : List Nat)
  | array (xs : List Object)
  | dictionary (d : List (List Nat × Object))
  | stream (dict : List (List Nat × Object)) (data : StreamData)
  | reference (id : Nat × Nat)

abbrev Dict := List (List Nat × Object)

def dictGet (d : Dict) (k : List Nat) : Option Object :=
  match d with
  | [] => none
  | (k1, v) :: rest => if k1 = k then some v else dictGet rest k

/-- Dictionary::set, last write wins. -/
def dictSet (d : Dict) (k : List Nat) (v : Object) : Dict :=
  match d with
  | [] => [(k, v)]
  | (k1, v1) :: rest => if k1 = k then (k, v) :: rest else (k1, v1) :: dictSet rest k v

def Object.as_i64 : Object → Option Int
  | .integer i => some i
  | _ => none

def Object.as_reference : Object → Option (Nat × Nat)
  | .reference id => some id
  | _ => none

def insertEntry : List (Nat × XrefEntry) → Nat → XrefEntry → List (Nat × XrefEntry)
  | [], k, e => [(k, e)]
  | (k1, e1) :: rest, k, e =>
    if k1 = k then (k, e) :: rest else (k1, e1) :: insertEntry rest k e

def Xref.insert (x : Xref) (k : Nat) (e : XrefEntry) : Xref :=
  { x with entries := insertEntry x.entries k e }

/-- Rust as-casts used by the parser, as explicit wrap-arounds. -/
def intToUsize (i : Int) : Nat := (i % (2 : Int) ^ 64).toNat

def intToU32 (i : Int) : Nat := (i % (2 : Int) ^ 32).toNat

def intToU16 (i : Int) : Nat := (i % (2 : Int) ^ 16).toNat

/- Object grammar. -/

def boolean : Parser Object :=
  altP (mapP (seqNatsP [116, 114, 117, 101]) (fun _ => Object.boolean true))
    (mapP (seqNatsP [102, 97, 108, 115, 101]) (fun _ => Object.boolean false))

def null : Parser Object := mapP (seqNatsP [110, 117, 108, 108]) (fun _ => Object.null)

/-- object_id: unsigned decimal u32, whitespace, unsigned decimal u16,
whitespace; overflow of either integer is a recoverable failure. -/
def object_id : Parser (Nat × Nat) :=
  let idP := convertP (repeat1 (oneOfP digitNats)) (fun ds =>
    if digitsVal ds < 2 ^ 32 then some (digitsVal ds) else none)
  let genP := convertP (repeat1 (oneOfP digitNats)) (fun ds =>
    if digitsVal ds < 2 ^ 16 then some (digitsVal ds) else none)
  seqL (pairP (seqL idP space) genP) space

/-- The indirect-reference alternative of the object grammar: object_id
followed by the letter R. -/
def refParser : Parser Object :=
  seqL (mapP object_id Object.reference) (symP 82)

mutual

/-- direct_object with the mutual array/dictionary recursion made structural
on fuel; each recursion step first consumes at least one byte, so fuel
(remaining length + 1) at the entry point is never exhausted. -/
def direct_objectCore : Nat → Parser Object
  | 0 => fun _ _ => .err
  | fuel + 1 =>
    seqL
      (altP null
      (altP boolean
      (altP refParser
      (altP (mapP real Object.real)
      (altP (mapP integer Object.integer)
      (altP (mapP name Object.name)
      (altP (mapP literal_string (fun s => Object.string s .literal))
      (altP (mapP hexadecimal_string (fun s => Object.string s .hexadecimal))
      (altP (mapP (seqL (seqR (seqR (symP 91) space) (repeat0 (direct_objectCore fuel)))
                    (symP 93)) Object.array)
        (mapP (dictionaryCore fuel) Object.dictionary))))))))))
      space

def dictionaryCore : Nat → Parser Dict
  | 0 => fun _ _ => .err
  | fuel + 1 =>
    mapP (seqL (seqR (seqR (seqNatsP [60, 60]) space)
            (repeat0 (pairP (seqL name space) (direct_objectCore fuel))))
          (seqNatsP [62, 62]))
      (fun entries => entries.foldl (fun d kv => dictSet d kv.1 kv.2) [])

end

def direct_object : Parser Object := fun l pos =>
  direct_objectCore (l.length + 1) l pos

def dictionary : Parser Dict := fun l pos =>
  dictionaryCore (l.length + 1) l pos

def arrayP : Parser (List Object) :=
  seqL (seqR (seqR (symP 91) space) (repeat0 direct_object)) (symP 93)

/-- The Reader capability: get_object(ObjectId) -> Option of Object. -/
abbrev Reader := (Nat × Nat) → Option Object

/-- Length resolution for a stream dictionary: a Reference value is resolved
through the Reader (unresolvable is none), a direct value must be an
integer. -/
def lengthOf (reader : Reader) (dict : Dict) : Option Int :=
  (dictGet dict [76, 101, 110, 103, 116, 104]).bind (fun value =>
    match value.as_reference with
    | some id => (reader id).bind Object.as_i64
    | none => value.as_i64)

/-- The prefix of a stream object: dictionary, whitespace, the stream
keyword, one end of line. -/
def streamHead : Parser Dict :=
  seqL (seqL (seqL dictionary space) (seqNatsP [115, 116, 114, 101, 97, 109])) eol

/-- stream: if the Length resolves, exactly that many payload bytes, an
optional end of line and the endstream keyword — the endstream keyword is a
hard expectation (pom .expect), so its absence after the committed payload
is fatal, not a backtrackable mismatch; otherwise the deferred variant
recording the payload-start position. -/
def stream (reader : Reader) : Parser (Dict × StreamData) :=
  bindP streamHead (fun dict =>
    match lengthOf reader dict with
    | some length =>
      mapP (seqL (seqL (takeN (intToUsize length)) (optP eol))
              (expectP (seqNatsP [101, 110, 100, 115, 116, 114, 101, 97, 109])))
        (fun data => (dict, StreamData.bytes data))
    | none => mapP posP (fun pos => (dict, StreamData.deferred pos)))

/-- object: as direct_object plus the stream alternative before the
dictionary alternative. -/
def object (reader : Reader) : Parser Object :=
  seqL
    (altP null
    (altP boolean
    (altP refParser
    (altP (mapP real Object.real)
    (altP (mapP integer Object.integer)
    (altP (mapP name Object.name)
    (altP (mapP literal_string (fun s => Object.string s .literal))
    (altP (mapP hexadecimal_string (fun s => Object.string s .hexadecimal))
    (altP (mapP arrayP Object.array)
    (altP (mapP (stream reader) (fun s => Object.stream s.1 s.2))
      (mapP dictionary Object.dictionary)))))))))))
    space

def indirect_object (reader : Reader) : Parser ((Nat × Nat) × Object) :=
  seqL (seqL (seqL (pairP (seqL (seqL object_id (seqNatsP [111, 98, 106])) space)
    (object reader)) space)
    (optP (seqNatsP [101, 110, 100, 111, 98, 106]))) space

/- Document-structure grammar. -/

/-- xref_entry: integer, one space, integer, one space, n or f, then two
discarded bytes. -/
def xref_entry : Parser ((Nat × Nat) × Bool) :=
  seqL (pairP (seqL (pairP (seqL (mapP integer intToU32) (symP 32))
                      (mapP integer intToU16))
                (symP 32))
          (mapP (oneOfP [110, 102]) (fun k => k == 110)))
    (takeN 2)

/-- xref_section: start, space, count, optional space, end of line, then a
greedy run of entries. -/
def xref_section : Parser ((Nat × Int) × List ((Nat × Nat) × Bool)) :=
  pairP (seqL (seqL (pairP (seqL (mapP integer intToUsize) (symP 32)) integer)
          (optP (symP 32)))
        eol)
    (repeat0 xref_entry)

/-- The for-loop body over one parsed section: in-use entries are inserted
keyed by start plus index within the section, free entries are dropped. -/
def sectionFold (x : Xref) (sec : (Nat × Int) × List ((Nat × Nat) × Bool)) : Xref :=
  sec.2.enum.foldl
    (fun x ie =>
      if ie.2.2 then Xref.insert x ((sec.1.1 + ie.1) % 2 ^ 32) (XrefEntry.normal ie.2.1.1 ie.2.1.2)
      else x)
    x

def xrefFold (sections : List ((Nat × Int) × List ((Nat × Nat) × Bool))) : Xref :=
  sections.foldl sectionFold (Xref.mk [] 0)

def xref : Parser Xref :=
  mapP (seqL (seqR (seqR (seqNatsP [120, 114, 101, 102]) eol) (repeat1 xref_section)) space)
    xrefFold

def trailer : Parser Dict :=
  seqL (seqR (seqR (seqNatsP [116, 114, 97, 105, 108, 101, 114]) space) dictionary) space

/-- xref_and_trailer: classic table plus trailer first, with the trailer's
Size key read by Option::expect (a panic, hence fatal, when absent or not an
integer); on a recoverable failure of that branch, an indirect object whose
value must be a stream, handed to the external cross-reference-stream
decoder dec (crate::xref, not under src/, passed as a parameter). -/
def xref_and_trailer (dec : Dict × StreamData → Xref × Dict) (reader : Reader) :
    Parser (Xref × Dict) :=
  altP
    (mapHard (pairP xref trailer) (fun xt =>
      ((dictGet xt.2 [83, 105, 122, 101]).bind Object.as_i64).map (fun n =>
        ({ xt.1 with size := intToU32 n }, xt.2))))
    (convertP (indirect_object reader) (fun io =>
      match io.2 with
      | Object.stream d sd => some (dec (d, sd))
      | _ => none))

/- Content-stream grammar (the part the claims mention). -/

/-- operator: one or more bytes, each an ASCII alphabetic byte or one of the
punctuation operator bytes asterisk, apostrophe, double quote; the source
converts the run with String::from_utf8, which never fails on these bytes,
so the byte run itself is the token. -/
def operator : Parser (List Nat) :=
  repeat1 (altP (satisfyP isAlphaB) (oneOfP [42, 39, 34]))

/- Composition lemmas for the combinators. -/

theorem bindP_ok {α β : Type} {p : Parser α} {f : α → Parser β} {l : List Nat} {pos : Nat}
    {a : α} {l1 : List Nat} {p1 : Nat} (h : p l pos = .ok a l1 p1) :
    bindP p f l pos = f a l1 p1 := by
  simp [bindP, h]

theorem mapP_ok {α β : Type} {p : Parser α} {f : α → β} {l : List Nat} {pos : Nat}
    {a : α} {l1 : List Nat} {p1 : Nat} (h : p l pos = .ok a l1 p1) :
    mapP p f l pos = .ok (f a) l1 p1 := by
  simp [mapP, bindP, h, pureP]

theorem mapP_err {α β : Type} {p : Parser α} {f : α → β} {l : List Nat} {pos : Nat}
    (h : p l pos = .err) : mapP p f l pos = .err := by
  simp [mapP, bindP, h]

theorem seqL_ok {α β : Type} {p : Parser α} {q : Parser β} {l : List Nat} {pos : Nat}
    {a : α} {l1 : List Nat} {p1 : Nat} {b : β} {l2 : List Nat} {p2 : Nat}
    (h1 : p l pos = .ok a l1 p1) (h2 : q l1 p1 = .ok b l2 p2) :
    seqL p q l pos = .ok a l2 p2 := by
  simp [seqL, bindP, h1, mapP, pureP, h2]

theorem seqL_err1 {α β : Type} {p : Parser α} {q : Parser β} {l : List Nat} {pos : Nat}
    (h : p l pos = .err) : seqL p q l pos = .err := by
  simp [seqL, bindP, h]

theorem seqR_ok {α β : Type} {p : Parser α} {q : Parser β} {l : List Nat} {pos : Nat}
    {a : α} {l1 : List Nat} {p1 : Nat} (h1 : p l pos = .ok a l1 p1) :
    seqR p q l pos = q l1 p1 := by
  simp [seqR, bindP, h1]

theorem seqR_err1 {α β : Type} {p : Parser α} {q : Parser β} {l : List Nat} {pos : Nat}
    (h : p l pos = .err) : seqR p q l pos = .err := by
  simp [seqR, bindP, h]

theorem pairP_ok {α β : Type} {p : Parser α} {q : Parser β} {l : List Nat} {pos : Nat}
    {a : α} {l1 : List Nat} {p1 : Nat} {b : β} {l2 : List Nat} {p2 : Nat}
    (h1 : p l pos = .ok a l1 p1) (h2 : q l1 p1 = .ok b l2 p2) :
    pairP p q l pos = .ok (a, b) l2 p2 := by
  simp [pairP, bindP, h1, mapP, pureP, h2]

theorem altP_ok1 {α : Type} {p q : Parser α} {l : List Nat} {pos : Nat}
    {a : α} {l1 : List Nat} {p1 : Nat} (h : p l pos = .ok a l1 p1) :
    altP p q l pos = .ok a l1 p1 := by
  simp [altP, h]

theorem altP_err1 {α : Type} {p q : Parser α} {l : List Nat} {pos : Nat}
    (h : p l pos = .err) : altP p q l pos = q l pos := by
  simp [altP, h]

theorem convertP_ok {α β : Type} {p : Parser α} {f : α → Option β} {l : List Nat} {pos : Nat}
    {a : α} {l1 : List Nat} {p1 : Nat} {b : β}
    (h1 : p l pos = .ok a l1 p1) (h2 : f a = some b) :
    convertP p f l pos = .ok b l1 p1 := by
  simp [convertP, h1, h2]

theorem convertP_err1 {α β : Type} {p : Parser α} {f : α → Option β} {l : List Nat} {pos : Nat}
    (h : p l pos = .err) : convertP p f l pos = .err := by
  simp [convertP, h]

theorem optP_ok {α : Type} {p : Parser α} {l : List Nat} {pos : Nat}
    {a : α} {l1 : List Nat} {p1 : Nat} (h : p l pos = .ok a l1 p1) :
    optP p l pos = .ok (some a) l1 p1 := by
  simp [optP, h]

theorem optP_err {α : Type} {p : Parser α} {l : List Nat} {pos : Nat}
    (h : p l pos = .err) : optP p l pos = .ok none l pos := by
  simp [optP, h]

/- seqNats lemmas. -/

theorem seqNatsP_append (s rest : List Nat) (pos : Nat) :
    seqNatsP s (s ++ rest) pos = .ok s rest (pos + s.length) := by
  have hpre : s.isPrefixOf (s ++ rest) = true :=
    List.isPrefixOf_iff_prefix.mpr (List.prefix_append s rest)
  simp [seqNatsP, hpre]

theorem seqNatsP_err_head {b c : Nat} (s t : List Nat) (pos : Nat) (h : c ≠ b) :
    seqNatsP (b :: s) (c :: t) pos = .err := by
  have : (b :: s).isPrefixOf (c :: t) = false := by
    apply Bool.eq_false_iff.mpr
    intro hc
    have := List.isPrefixOf_iff_prefix.mp hc
    rcases this with ⟨u, hu⟩
    simp at hu
    exact h hu.1.symm
  simp [seqNatsP, this]

theorem seqNatsP_err_nil {b : Nat} (s : List Nat) (pos : Nat) :
    seqNatsP (b :: s) [] pos = .err := by
  have : (b :: s).isPrefixOf ([] : List Nat) = false := by
    apply Bool.eq_false_iff.mpr
    intro hc
    have := List.isPrefixOf_iff_prefix.mp hc
    rcases this with ⟨u, hu⟩
    simp at hu
  simp [seqNatsP, this]

/- Single-byte class parsers and their greedy repetition. -/

/-- p consumes exactly one byte of the class cls, and fails otherwise. -/
def IsNatClassP (p : Parser Nat) (cls : Nat → Bool) : Prop :=
  (∀ pos, p [] pos = .err) ∧
  ∀ c t pos, p (c :: t) pos = if cls c then .ok c t (pos + 1) else .err

theorem satisfyP_class (cls : Nat → Bool) : IsNatClassP (satisfyP cls) cls := by
  constructor
  · intro pos; rfl
  · intro c t pos; rfl

theorem oneOfP_class (s : List Nat) : IsNatClassP (oneOfP s) (fun c => s.contains c) :=
  satisfyP_class _

theorem repeatCore_class_append {p : Parser Nat} {cls : Nat → Bool}
    (hp : IsNatClassP p cls) :
    ∀ (d : List Nat) (fuel : Nat) (rest : List Nat) (pos : Nat),
      (∀ b ∈ d, cls b = true) →
      (∀ b, rest.head? = some b → cls b = false) →
      d.length < fuel →
      repeatCore p fuel (d ++ rest) pos = .ok d rest (pos + d.length) := by
  intro d
  induction d with
  | nil =>
    intro fuel rest pos _ hrest hfuel
    match fuel, hfuel with
    | fuel + 1, _ =>
      simp only [List.nil_append, repeatCore]
      match rest, hrest with
      | [], _ => simp [hp.1]
      | b :: t, hrest =>
        have hb : cls b = false := hrest b rfl
        simp [hp.2, hb]
  | cons c d ih =>
    intro fuel rest pos hd hrest hfuel
    match fuel, hfuel with
    | fuel + 1, hfuel =>
      have hc : cls c = true := hd c (by simp)
      have hrec := ih fuel rest (pos + 1) (fun b hb => hd b (by simp [hb])) hrest
        (by simpa using Nat.lt_of_succ_lt_succ hfuel)
      simp only [List.cons_append, repeatCore, hp.2, hc, if_pos, hrec]
      simp [Nat.add_assoc, Nat.add_comm 1 d.length]

theorem repeat0_class_append {p : Parser Nat} {cls : Nat → Bool}
    (hp : IsNatClassP p cls) (d rest : List Nat) (pos : Nat)
    (hd : ∀ b ∈ d, cls b = true)
    (hrest : ∀ b, rest.head? = some b → cls b = false) :
    repeat0 p (d ++ rest) pos = .ok d rest (pos + d.length) := by
  unfold repeat0
  exact repeatCore_class_append hp d ((d ++ rest).length + 1) rest pos hd hrest
    (by simp [List.length_append]; omega)

theorem repeat1_class_append {p : Parser Nat} {cls : Nat → Bool}
    (hp : IsNatClassP p cls) (d rest : List Nat) (pos : Nat)
    (hne : d ≠ [])
    (hd : ∀ b ∈ d, cls b = true)
    (hrest : ∀ b, rest.head? = some b → cls b = false) :
    repeat1 p (d ++ rest) pos = .ok d rest (pos + d.length) := by
  unfold repeat1
  rw [repeat0_class_append hp d rest pos hd hrest]
  simp [List.isEmpty_iff, hne]

theorem repeatCore_class_inv {p : Parser Nat} {cls : Nat → Bool}
    (hp : IsNatClassP p cls) :
    ∀ (fuel : Nat) (l : List Nat) (pos : Nat) (ds rest : List Nat) (pos1 : Nat),
      l.length < fuel →
      repeatCore p fuel l pos = .ok ds rest pos1 →
      l = ds ++ rest ∧ (∀ b ∈ ds, cls b = true) ∧ pos1 = pos + ds.length ∧
        (∀ b, rest.head? = some b → cls b = false) := by
  intro fuel
  induction fuel with
  | zero => intro l pos ds rest pos1 hfuel; omega
  | succ fuel ih =>
    intro l pos ds rest pos1 hfuel h
    match l with
    | [] =>
      rw [show repeatCore p (fuel + 1) [] pos = .ok [] [] pos by
        simp [repeatCore, hp.1]] at h
      cases h
      simp
    | c :: t =>
      simp only [repeatCore] at h
      rw [hp.2] at h
      by_cases hc : cls c
      · rw [if_pos hc] at h
        simp only [] at h
        rcases hrec : repeatCore p fuel t (pos + 1) with ⟨as, rest1, pos2⟩ | _ | _ <;>
          rw [hrec] at h <;> cases h
        have := ih t (pos + 1) as rest pos1 (by simp at hfuel ⊢; omega) hrec
        refine ⟨by simp [this.1], ?_, ?_, this.2.2.2⟩
        · intro b hb
          rcases List.mem_cons.mp hb with hb | hb
          · exact hb ▸ hc
          · exact this.2.1 b hb
        · simp [this.2.2.1]; omega
      · rw [if_neg hc] at h
        simp only [] at h
        cases h
        refine ⟨rfl, by simp, by simp, ?_⟩
        intro b hb
        simp at hb
        exact hb ▸ Bool.eq_false_iff.mpr hc

theorem repeat0_class_inv {p : Parser Nat} {cls : Nat → Bool}
    (hp : IsNatClassP p cls) {l : List Nat} {pos : Nat} {ds rest : List Nat} {pos1 : Nat}
    (h : repeat0 p l pos = .ok ds rest pos1) :
    l = ds ++ rest ∧ (∀ b ∈ ds, cls b = true) ∧ pos1 = pos + ds.length ∧
      (∀ b, rest.head? = some b → cls b = false) :=
  repeatCore_class_inv hp (l.length + 1) l pos ds rest pos1 (by omega) h

/- takeWhile lemmas. -/

theorem takeWhile_append_eq {cls : Nat → Bool} (w rest : List Nat)
    (hw : ∀ b ∈ w, cls b = true)
    (hrest : ∀ b, rest.head? = some b → cls b = false) :
    (w ++ rest).takeWhile cls = w ∧ (w ++ rest).dropWhile cls = rest := by
  induction w with
  | nil =>
    simp only [List.nil_append]
    match rest, hrest with
    | [], _ => simp
    | b :: t, hrest =>
      have := hrest b rfl
      simp [List.takeWhile, List.dropWhile, this]
  | cons c w ih =>
    have hc : cls c = true := hw c (by simp)
    have := ih (fun b hb => hw b (by simp [hb]))
    simp [List.takeWhile, List.dropWhile, hc, this.1, this.2]

theorem takeWhileP_append {cls : Nat → Bool} (w rest : List Nat) (pos : Nat)
    (hw : ∀ b ∈ w, cls b = true)
    (hrest : ∀ b, rest.head? = some b → cls b = false) :
    takeWhileP cls (w ++ rest) pos = .ok w rest (pos + w.length) := by
  have h := takeWhile_append_eq w rest hw hrest
  simp only [takeWhileP, h.1]
  rw [show (w ++ rest).drop w.length = rest from List.drop_left w rest]

theorem takeWhile1P_append {cls : Nat → Bool} (w rest : List Nat) (pos : Nat)
    (hne : w ≠ [])
    (hw : ∀ b ∈ w, cls b = true)
    (hrest : ∀ b, rest.head? = some b → cls b = false) :
    takeWhile1P cls (w ++ rest) pos = .ok w rest (pos + w.length) := by
  have h := takeWhile_append_eq w rest hw hrest
  have hlen : w.length ≠ 0 := by simpa using hne
  simp only [takeWhile1P, h.1, if_neg hlen]
  rw [show (w ++ rest).drop w.length = rest from List.drop_left w rest]

theorem takeWhile1P_err {cls : Nat → Bool} (l : List Nat) (pos : Nat)
    (h : ∀ b, l.head? = some b → cls b = false) :
    takeWhile1P cls l pos = .err := by
  have : l.takeWhile cls = [] := by
    match l, h with
    | [], _ => rfl
    | b :: t, h => simp [List.takeWhile, h b rfl]
  simp [takeWhile1P, this]

theorem symP_err_head {b c : Nat} (t : List Nat) (pos : Nat) (h : c ≠ b) :
    symP b (c :: t) pos = .err := by
  simp [symP, h]

theorem symP_err_nil (b : Nat) (pos : Nat) : symP b [] pos = .err := by
  simp [symP]

theorem symP_ok (b : Nat) (t : List Nat) (pos : Nat) :
    symP b (b :: t) pos = .ok b t (pos + 1) := by
  simp [symP]

theorem takeN_append (d rest : List Nat) (pos : Nat) :
    takeN d.length (d ++ rest) pos = .ok d rest (pos + d.length) := by
  have h1 : d.length ≤ (d ++ rest).length := by simp
  simp only [takeN, if_pos h1]
  rw [List.take_left, List.drop_left]

theorem head?_dropWhile_not (cls : Nat → Bool) :
    ∀ (l : List Nat) (b : Nat), (l.dropWhile cls).head? = some b → cls b = false := by
  intro l
  induction l with
  | nil => intro b h; simp [List.dropWhile] at h
  | cons c t ih =>
    intro b h
    by_cases hc : cls c
    · rw [List.dropWhile_cons_of_pos hc] at h
      exact ih b h
    · rw [List.dropWhile_cons_of_neg hc] at h
      simp at h
      exact h ▸ Bool.eq_false_iff.mpr hc

/- Greedy-repetition chaining: a run description independent of the fuel
bound, together with its introduction rules and its reading back into
repeat0/repeat1. -/

def RunsTo {α : Type} (p : Parser α) (l : List Nat) (pos : Nat)
    (as : List α) (rest : List Nat) (pos1 : Nat) : Prop :=
  ∀ fuel, l.length < fuel → repeatCore p fuel l pos = .ok as rest pos1

theorem runsTo_nil {α : Type} {p : Parser α} {l : List Nat} {pos : Nat}
    (h : p l pos = .err) : RunsTo p l pos [] l pos := by
  intro fuel hfuel
  match fuel, hfuel with
  | fuel + 1, _ => simp [repeatCore, h]

theorem runsTo_cons {α : Type} {p : Parser α} {l : List Nat} {pos : Nat}
    {a : α} {l1 : List Nat} {p1 : Nat} {as : List α} {l2 : List Nat} {p2 : Nat}
    (hstep : p l pos = .ok a l1 p1) (hlt : l1.length < l.length)
    (hrun : RunsTo p l1 p1 as l2 p2) :
    RunsTo p l pos (a :: as) l2 p2 := by
  intro fuel hfuel
  match fuel, hfuel with
  | fuel + 1, hfuel =>
    have : repeatCore p fuel l1 p1 = .ok as l2 p2 := hrun fuel (by omega)
    simp [repeatCore, hstep, this]

theorem repeat0_runsTo {α : Type} {p : Parser α} {l : List Nat} {pos : Nat}
    {as : List α} {rest : List Nat} {pos1 : Nat}
    (h : RunsTo p l pos as rest pos1) : repeat0 p l pos = .ok as rest pos1 :=
  h (l.length + 1) (by omega)

theorem repeat1_runsTo {α : Type} {p : Parser α} {l : List Nat} {pos : Nat}
    {as : List α} {rest : List Nat} {pos1 : Nat}
    (h : RunsTo p l pos as rest pos1) (hne : as ≠ []) :
    repeat1 p l pos = .ok as rest pos1 := by
  unfold repeat1
  rw [repeat0_runsTo h]
  simp [List.isEmpty_iff, hne]

/- eol, comment and space lemmas. -/

theorem eol_lf (rest : List Nat) (pos : Nat) :
    eol (10 :: rest) pos = .ok 10 rest (pos + 1) := by
  have h1 : seqNatsP [13, 10] (10 :: rest) pos = .err :=
    seqNatsP_err_head [10] rest pos (by decide)
  have h2 : seqNatsP [10] (10 :: rest) pos = .ok [10] rest (pos + 1) := by
    have := seqNatsP_append [10] rest pos
    simpa using this
  unfold eol
  rw [altP_err1 (mapP_err h1), altP_ok1 (mapP_ok h2)]

theorem comment_err {l : List Nat} (pos : Nat)
    (h : ∀ b, l.head? = some b → b ≠ 37) :
    comment l pos = .err := by
  unfold comment
  apply mapP_err
  apply seqL_err1
  apply seqR_err1
  match l with
  | [] => exact seqNatsP_err_nil _ _
  | b :: t => exact seqNatsP_err_head _ _ _ (h b rfl)

/-- The repeated item of the space parser fails exactly when the head is
neither whitespace nor a percent sign. -/
theorem spaceItem_err {l : List Nat} (pos : Nat)
    (h : ∀ b, l.head? = some b → is_whitespace b = false ∧ b ≠ 37) :
    altP (mapP (takeWhile1P is_whitespace) (fun _ => ())) comment l pos = .err := by
  rw [altP_err1 (mapP_err (takeWhile1P_err l pos (fun b hb => (h b hb).1)))]
  exact comment_err pos (fun b hb => (h b hb).2)

theorem space_append (w rest : List Nat) (pos : Nat)
    (hw : ∀ b ∈ w, is_whitespace b = true)
    (hrest : ∀ b, rest.head? = some b → is_whitespace b = false ∧ b ≠ 37) :
    space (w ++ rest) pos = .ok () rest (pos + w.length) := by
  unfold space
  match w with
  | [] =>
    rw [List.nil_append]
    rw [mapP_ok (repeat0_runsTo (runsTo_nil (spaceItem_err pos hrest)))]
    simp
  | c :: w1 =>
    have hstep : altP (mapP (takeWhile1P is_whitespace) (fun _ => ())) comment
        ((c :: w1) ++ rest) pos = .ok () rest (pos + (c :: w1).length) := by
      apply altP_ok1
      exact mapP_ok (takeWhile1P_append (c :: w1) rest pos (by simp)
        hw (fun b hb => (hrest b hb).1))
    have hrun : RunsTo (altP (mapP (takeWhile1P is_whitespace) (fun _ => ())) comment)
        ((c :: w1) ++ rest) pos [()] rest (pos + (c :: w1).length) :=
      runsTo_cons hstep (by simp; omega) (runsTo_nil (spaceItem_err _ hrest))
    rw [mapP_ok (repeat0_runsTo hrun)]

theorem space_nil (pos : Nat) : space [] pos = .ok () [] pos := by
  have := space_append [] [] pos (by simp) (by simp)
  simpa using this

/- integer on an unsigned digit run. -/

theorem mem_digitNats_iff (b : Nat) :
    digitNats.contains b = true ↔ (48 ≤ b ∧ b ≤ 57) := by
  rw [show (digitNats.contains b = true) ↔ b ∈ digitNats from List.elem_iff]
  simp only [digitNats, List.mem_cons, List.not_mem_nil, or_false]
  omega

theorem oneOfP_err_head {s : List Nat} {c : Nat} (t : List Nat) (pos : Nat)
    (h : s.contains c = false) : oneOfP s (c :: t) pos = .err := by
  have h2 := (oneOfP_class s).2 c t pos
  simp only [h] at h2
  simpa using h2

theorem i64OfParts_pos (m : Nat) (hbound : (m : Int) < 2 ^ 63) :
    i64OfParts (none == some 45) m = some (m : Int) := by
  norm_num at hbound
  simp [i64OfParts]
  omega

theorem integer_digits (d rest : List Nat) (pos : Nat)
    (hne : d ≠ [])
    (hd : ∀ b ∈ d, 48 ≤ b ∧ b ≤ 57)
    (hrest : ∀ b, rest.head? = some b → ¬(48 ≤ b ∧ b ≤ 57))
    (hbound : (digitsVal d : Int) < 2 ^ 63) :
    integer (d ++ rest) pos = .ok (digitsVal d) rest (pos + d.length) := by
  obtain ⟨c, d1, rfl⟩ : ∃ c d1, d = c :: d1 := by
    cases d with
    | nil => exact absurd rfl hne
    | cons c d1 => exact ⟨c, d1, rfl⟩
  have hopt : optP (oneOfP [43, 45]) ((c :: d1) ++ rest) pos =
      .ok none ((c :: d1) ++ rest) pos := by
    apply optP_err
    rw [List.cons_append]
    apply oneOfP_err_head
    have := hd c (by simp)
    simp
    omega
  have hdig : ∀ b ∈ c :: d1, isDigitB b = true := by
    intro b hb; have := hd b hb; simp [isDigitB]; omega
  have hrest1 : ∀ b, rest.head? = some b → isDigitB b = false := by
    intro b hb
    have := hrest b hb
    simp [isDigitB]
    omega
  unfold integer
  rw [bindP_ok hopt]
  refine convertP_ok (takeWhile1P_append (c :: d1) rest pos hne hdig hrest1) ?_
  exact i64OfParts_pos (digitsVal (c :: d1)) hbound

/- The real-number rule. -/

theorem collectP_err {α : Type} {p : Parser α} {l : List Nat} {pos : Nat}
    (h : p l pos = .err) : collectP p l pos = .err := by
  simp [collectP, h]

theorem mem_takeWhile_cls {cls : Nat → Bool} :
    ∀ {l : List Nat} {b : Nat}, b ∈ l.takeWhile cls → cls b = true := by
  intro l
  induction l with
  | nil => intro b hb; simp [List.takeWhile] at hb
  | cons c t ih =>
    intro b hb
    by_cases hc : cls c
    · rw [List.takeWhile_cons_of_pos hc] at hb
      rcases List.mem_cons.mp hb with hb | hb
      · exact hb ▸ hc
      · exact ih hb
    · rw [List.takeWhile_cons_of_neg hc] at hb
      simp at hb

theorem symP46_err (r : List Nat) (q : Nat) (hr : ∀ b ∈ r, b ≠ 46) :
    symP 46 r q = .err := by
  match r with
  | [] => exact symP_err_nil 46 q
  | b :: t => exact symP_err_head t q (hr b (by simp))

/-- The digits-and-dot alternation of the real rule fails on input without a
decimal point. -/
theorem realAlt_err (l : List Nat) (pos : Nat) (h : ∀ b ∈ l, b ≠ 46) :
    altP
      (seqL (seqR (repeat1 (oneOfP digitNats)) (symP 46)) (repeat0 (oneOfP digitNats)))
      (seqL (symP 46) (repeat1 (oneOfP digitNats))) l pos = .err := by
  obtain ⟨d, r, hdr, hd, hr⟩ : ∃ d r, l = d ++ r ∧
      (∀ b ∈ d, digitNats.contains b = true) ∧
      (∀ b, r.head? = some b → digitNats.contains b = false) :=
    ⟨l.takeWhile (fun c => digitNats.contains c), l.dropWhile (fun c => digitNats.contains c),
      (List.takeWhile_append_dropWhile (fun c => digitNats.contains c) l).symm,
      fun b hb => mem_takeWhile_cls hb,
      fun b hb => head?_dropWhile_not _ l b hb⟩
  subst hdr
  have hmemr : ∀ b ∈ r, b ≠ 46 := fun b hb => h b (List.mem_append_right d hb)
  have halt1 : seqL (seqR (repeat1 (oneOfP digitNats)) (symP 46))
      (repeat0 (oneOfP digitNats)) (d ++ r) pos = .err := by
    match d, hd with
    | [], _ =>
      have hrep : repeat1 (oneOfP digitNats) ([] ++ r) pos = .err := by
        unfold repeat1
        rw [repeat0_runsTo (runsTo_nil ?_)]
        · simp
        · match r, hr with
          | [], _ => exact (oneOfP_class digitNats).1 pos
          | b :: t, hr =>
            show oneOfP digitNats ([] ++ b :: t) pos = .err
            rw [List.nil_append]
            exact oneOfP_err_head t pos (hr b rfl)
      exact seqL_err1 (seqR_err1 hrep)
    | c :: d1, hd =>
      have hrep := repeat1_class_append (oneOfP_class digitNats) (c :: d1) r pos
        (by simp) hd hr
      have hsymr : symP 46 r (pos + (c :: d1).length) = .err :=
        symP46_err r _ hmemr
      exact seqL_err1 ((seqR_ok hrep).trans hsymr)
  rw [altP_err1 halt1]
  exact seqL_err1 (symP46_err (d ++ r) pos h)

/-- The real parser fails on any input containing no decimal-point byte. -/
theorem real_no_dot (l : List Nat) (pos : Nat) (h : ∀ b ∈ l, b ≠ 46) :
    real l pos = .err := by
  unfold real
  apply convertP_err1
  apply collectP_err
  unfold pairP
  match l, h with
  | [], h =>
    have hopt : optP (oneOfP [43, 45]) [] pos = .ok none [] pos :=
      optP_err ((oneOfP_class [43, 45]).1 pos)
    rw [bindP_ok hopt]
    exact mapP_err (realAlt_err [] pos h)
  | c :: t, h =>
    by_cases hc : ([43, 45] : List Nat).contains c
    · have hopt : optP (oneOfP [43, 45]) (c :: t) pos = .ok (some c) t (pos + 1) := by
        apply optP_ok
        rw [(oneOfP_class [43, 45]).2 c t pos, if_pos hc]
      rw [bindP_ok hopt]
      exact mapP_err (realAlt_err t (pos + 1) (fun b hb => h b (by simp [hb])))
    · have hopt : optP (oneOfP [43, 45]) (c :: t) pos = .ok none (c :: t) pos :=
        optP_err (oneOfP_err_head t pos (by simpa using hc))
      rw [bindP_ok hopt]
      exact mapP_err (realAlt_err (c :: t) pos h)

/-- C7: the real-number rule parses 0.12 to the decimal literal of value
0.12, -.12 to -0.12 and 10. to 10.0 (values read exactly as rationals), and
fails on every input that contains no decimal-point byte, even a valid
integer literal. -/
theorem claim_c7_real_grammar :
    (real [48, 46, 49, 50] 0 = .ok ⟨false, 0, 12, 2⟩ [] 4 ∧
      DecLit.toRat ⟨false, 0, 12, 2⟩ = 12 / 100) ∧
    (real [45, 46, 49, 50] 0 = .ok ⟨true, 0, 12, 2⟩ [] 4 ∧
      DecLit.toRat ⟨true, 0, 12, 2⟩ = -(12 / 100)) ∧
    (real [49, 48, 46] 0 = .ok ⟨false, 10, 0, 0⟩ [] 3 ∧
      DecLit.toRat ⟨false, 10, 0, 0⟩ = 10) ∧
    ∀ (l : List Nat) (pos : Nat), (∀ b ∈ l, b ≠ 46) → real l pos = .err :=
  ⟨⟨by decide, by norm_num [DecLit.toRat]⟩,
   ⟨by decide, by norm_num [DecLit.toRat]⟩,
   ⟨by decide, by norm_num [DecLit.toRat]⟩,
   real_no_dot⟩

/-- Witness for C7: the digit-only input 123 is rejected by the real rule. -/
theorem claim_c7_witness : real [49, 50, 51] 0 = .err :=
  claim_c7_real_grammar.2.2.2 [49, 50, 51] 0 (by decide)

/- C2: literal-string decoding of the CRLF test vector.  The input below is
the byte string (text CR LF backslash backslash ( n e s t e d backslash t
backslash b backslash f ) ); the claim expects the raw CR LF to be
canonicalized to LF, the code preserves it. -/

/-- Counterexample to C2: on the quoted input the literal-string parser
yields text CR LF backslash ( nested TAB BS FF ) — the raw CR LF bytes 13 10
are preserved verbatim, not canonicalized to a single 10 as the claim
states. -/
theorem claim_c2_counterexample :
    literal_string
      [40, 116, 101, 120, 116, 13, 10, 92, 92, 40, 110, 101, 115, 116, 101, 100,
        92, 116, 92, 98, 92, 102, 41, 41] 0 =
      .ok [116, 101, 120, 116, 13, 10, 92, 40, 110, 101, 115, 116, 101, 100, 9, 8, 12, 41] [] 24
    ∧ ([116, 101, 120, 116, 13, 10, 92, 40, 110, 101, 115, 116, 101, 100, 9, 8, 12, 41] : List Nat) ≠
      [116, 101, 120, 116, 10, 92, 40, 110, 101, 115, 116, 101, 100, 9, 8, 12, 41] :=
  ⟨by decide, by decide⟩

/-- C2 amended: decoding the literal string (text CR LF backslash backslash
( n e s t e d backslash t backslash b backslash f ) ) preserves the raw
(unescaped) CR LF bytes verbatim — only a backslash-escaped end of line is
dropped — and decodes the escaped backslash, the nested parentheses and the
t, b, f escapes as expected, yielding text CR LF backslash ( nested TAB BS
FF ). -/
theorem claim_c2_literal_crlf :
    literal_string
      [40, 116, 101, 120, 116, 13, 10, 92, 92, 40, 110, 101, 115, 116, 101, 100,
        92, 116, 92, 98, 92, 102, 41, 41] 0 =
      .ok [116, 101, 120, 116, 13, 10, 92, 40, 110, 101, 115, 116, 101, 100, 9, 8, 12, 41] [] 24 := by
  decide

/- C4: the classic xref fold keeps only in-use entries. -/

theorem foldl_if_filter {α β : Type} (g : α → Bool) (f : β → α → β) :
    ∀ (l : List α) (x : β),
      l.foldl (fun x a => if g a then f x a else x) x = (l.filter g).foldl f x := by
  intro l
  induction l with
  | nil => intro x; rfl
  | cons a t ih =>
    intro x
    by_cases hg : g a <;> simp [List.filter_cons, hg, ih]

/-- C4: over any parsed classic xref section, only the type-n entries are
inserted, keyed by start plus index within the section, while the type-f
entries are dropped (the fold over a section equals the fold over its
enumerated entries filtered to the in-use ones); and on the concrete
two-entry section with a free entry 0 and an in-use entry 1 at offset 9
generation 0 followed by a trailer with Size 2, the combined parse yields
exactly the mapping 1 to Normal offset 9 generation 0 — no entry for object
0 — with size 2. -/
theorem claim_c4_xref_normal_only :
    (∀ (x : Xref) (sec : (Nat × Int) × List ((Nat × Nat) × Bool)),
      sectionFold x sec =
        (sec.2.enum.filter (fun ie => ie.2.2)).foldl
          (fun x ie =>
            Xref.insert x ((sec.1.1 + ie.1) % 2 ^ 32) (XrefEntry.normal ie.2.1.1 ie.2.1.2))
          x) ∧
    ∀ (dec : Dict × StreamData → Xref × Dict) (reader : Reader),
      xref_and_trailer dec reader
        [120, 114, 101, 102, 10, 48, 32, 50, 10,
          48, 48, 48, 48, 48, 48, 48, 48, 48, 48, 32, 54, 53, 53, 51, 53, 32, 102, 32, 10,
          48, 48, 48, 48, 48, 48, 48, 48, 48, 57, 32, 48, 48, 48, 48, 48, 32, 110, 32, 10,
          116, 114, 97, 105, 108, 101, 114, 10, 60, 60, 47, 83, 105, 122, 101, 32, 50, 62, 62] 0 =
        .ok (Xref.mk [(1, XrefEntry.normal 9 0)] 2, [([83, 105, 122, 101], Object.integer 2)])
          [] 68 := by
  constructor
  · intro x sec
    unfold sectionFold
    exact foldl_if_filter _ _ sec.2.enum x
  · intro dec reader
    rfl

/- C5: the Size key of the classic trailer is read with Option::expect. -/

/-- C5: whenever the classic xref-plus-trailer alternative itself parses, the
combined entry point takes the result size from the trailer's Size key as an
integer, and an absent or non-integer Size is a fatal (panic) outcome — not
a recoverable mismatch that would fall through to the xref-stream
alternative, whatever the stream decoder and reader are. -/
theorem claim_c5_trailer_size (dec : Dict × StreamData → Xref × Dict) (reader : Reader)
    (input : List Nat) (pos : Nat) (x : Xref) (t : Dict) (rest : List Nat) (pos1 : Nat)
    (h : pairP xref trailer input pos = .ok (x, t) rest pos1) :
    xref_and_trailer dec reader input pos =
      match (dictGet t [83, 105, 122, 101]).bind Object.as_i64 with
      | some n => .ok ({ x with size := intToU32 n }, t) rest pos1
      | none => .fatal := by
  unfold xref_and_trailer
  cases hcase : (dictGet t [83, 105, 122, 101]).bind Object.as_i64 with
  | none => simp [altP, mapHard, h, hcase]
  | some n => simp [altP, mapHard, h, hcase]

/-- Witness for C5: with a trailer containing Size 2 the classic parse
succeeds with size 2; with an empty trailer dictionary the same entry point
is fatal. -/
theorem claim_c5_witness :
    xref_and_trailer (fun _ => (Xref.mk [] 0, [])) (fun _ => none)
      [120, 114, 101, 102, 10, 48, 32, 50, 10,
        48, 48, 48, 48, 48, 48, 48, 48, 48, 48, 32, 54, 53, 53, 51, 53, 32, 102, 32, 10,
        48, 48, 48, 48, 48, 48, 48, 48, 48, 57, 32, 48, 48, 48, 48, 48, 32, 110, 32, 10,
        116, 114, 97, 105, 108, 101, 114, 10, 60, 60, 47, 83, 105, 122, 101, 32, 50, 62, 62] 0 =
      .ok (Xref.mk [(1, XrefEntry.normal 9 0)] 2, [([83, 105, 122, 101], Object.integer 2)])
        [] 68 ∧
    xref_and_trailer (fun _ => (Xref.mk [] 0, [])) (fun _ => none)
      [120, 114, 101, 102, 10, 48, 32, 49, 10,
        48, 48, 48, 48, 48, 48, 48, 48, 48, 57, 32, 48, 48, 48, 48, 48, 32, 110, 32, 10,
        116, 114, 97, 105, 108, 101, 114, 10, 60, 60, 62, 62] 0 = .fatal :=
  ⟨(claim_c5_trailer_size _ _ _ 0 (Xref.mk [(1, XrefEntry.normal 9 0)] 0)
      [([83, 105, 122, 101], Object.integer 2)] [] 68 (by rfl)).trans (by rfl),
   (claim_c5_trailer_size _ _ _ 0 (Xref.mk [(0, XrefEntry.normal 9 0)] 0)
      [] [] 41 (by rfl)).trans (by rfl)⟩

/- C3: the classic xref section shape. -/

/-- Counterexample to C3: a section declaring count 2 followed by a single
entry whose offset and generation are not 10- and 5-digit fixed-width fields
(the bytes spell xref, newline, 0 space 2, newline, 9 space 0 space n space
newline) is accepted by the xref parser, producing the one entry — the
parser neither checks the declared count nor the fixed entry shape. -/
theorem claim_c3_counterexample :
    xref [120, 114, 101, 102, 10, 48, 32, 50, 10, 57, 32, 48, 32, 110, 32, 10] 0 =
      .ok (Xref.mk [(0, XrefEntry.normal 9 0)] 0) [] 16 := by
  decide

/-- C3 amended: a classic xref section is a start/count header line followed
by a greedy run of entries of the shape integer, space, integer, space, n or
f, plus two discarded bytes; the declared count is not checked against the
number of entries and no fixed digit widths are enforced: for every declared
count (any digit string below the i64 bound), the same single free-shape
entry 9 0 n parses to the same one-entry result. -/
theorem claim_c3_xref_section_greedy (d : List Nat)
    (hne : d ≠ []) (hd : ∀ b ∈ d, 48 ≤ b ∧ b ≤ 57)
    (hbound : (digitsVal d : Int) < 2 ^ 63) :
    xref ([120, 114, 101, 102, 10, 48, 32] ++ d ++ [10, 57, 32, 48, 32, 110, 32, 10]) 0 =
      .ok (Xref.mk [(0, XrefEntry.normal 9 0)] 0) [] (15 + d.length) := by
  have h_entry0 : ∀ q : Nat,
      repeat0 xref_entry [57, 32, 48, 32, 110, 32, 10] q =
        .ok [((9, 0), true)] [] (q + 7) := fun q => rfl
  have h_sec_err : ∀ q : Nat, xref_section [] q = .err := fun q => rfl
  have h1 : seqNatsP [120, 114, 101, 102]
      ([120, 114, 101, 102] ++ (10 :: (48 :: 32 :: (d ++ 10 :: [57, 32, 48, 32, 110, 32, 10])))) 0 =
      .ok [120, 114, 101, 102] (10 :: (48 :: 32 :: (d ++ 10 :: [57, 32, 48, 32, 110, 32, 10]))) 4 :=
    seqNatsP_append [120, 114, 101, 102] _ 0
  have h2 := eol_lf (48 :: 32 :: (d ++ 10 :: [57, 32, 48, 32, 110, 32, 10])) 4
  have h_int0 : integer ([48] ++ (32 :: (d ++ 10 :: [57, 32, 48, 32, 110, 32, 10]))) 5 =
      .ok 0 (32 :: (d ++ 10 :: [57, 32, 48, 32, 110, 32, 10])) 6 := by
    have := integer_digits [48] (32 :: (d ++ 10 :: [57, 32, 48, 32, 110, 32, 10])) 5
      (by simp) (by simp) (by intro b hb; simp at hb; omega) (by decide)
    simpa using this
  have hA1 : mapP integer intToUsize
      (48 :: 32 :: (d ++ 10 :: [57, 32, 48, 32, 110, 32, 10])) 5 =
      .ok 0 (32 :: (d ++ 10 :: [57, 32, 48, 32, 110, 32, 10])) 6 := mapP_ok h_int0
  have hA2 := seqL_ok hA1 (symP_ok 32 (d ++ 10 :: [57, 32, 48, 32, 110, 32, 10]) 6)
  have h_intd : integer (d ++ 10 :: [57, 32, 48, 32, 110, 32, 10]) 7 =
      .ok (digitsVal d) (10 :: [57, 32, 48, 32, 110, 32, 10]) (7 + d.length) :=
    integer_digits d (10 :: [57, 32, 48, 32, 110, 32, 10]) 7 hne hd
      (by intro b hb; simp at hb; omega) hbound
  have hA3 := pairP_ok hA2 h_intd
  have hA4 := seqL_ok hA3
    (optP_err (symP_err_head (b := 32) (c := 10) [57, 32, 48, 32, 110, 32, 10]
      (7 + d.length) (by decide)))
  have hA5 := seqL_ok hA4 (eol_lf [57, 32, 48, 32, 110, 32, 10] (7 + d.length))
  have hSec : xref_section (48 :: 32 :: (d ++ 10 :: [57, 32, 48, 32, 110, 32, 10])) 5 =
      .ok ((0, (digitsVal d : Int)), [((9, 0), true)]) [] (7 + d.length + 1 + 7) :=
    pairP_ok hA5 (h_entry0 (7 + d.length + 1))
  have hSecs : repeat1 xref_section
      (48 :: 32 :: (d ++ 10 :: [57, 32, 48, 32, 110, 32, 10])) 5 =
      .ok [((0, (digitsVal d : Int)), [((9, 0), true)])] [] (7 + d.length + 1 + 7) :=
    repeat1_runsTo (runsTo_cons hSec (by simp) (runsTo_nil (h_sec_err _))) (by simp)
  have e1 : seqR (seqR (seqNatsP [120, 114, 101, 102]) eol) (repeat1 xref_section)
      ([120, 114, 101, 102] ++ (10 :: (48 :: 32 :: (d ++ 10 :: [57, 32, 48, 32, 110, 32, 10])))) 0 =
      .ok [((0, (digitsVal d : Int)), [((9, 0), true)])] [] (7 + d.length + 1 + 7) := by
    rw [seqR_ok (p := seqR (seqNatsP [120, 114, 101, 102]) eol) ((seqR_ok h1).trans h2)]
    exact hSecs
  have e2 := seqL_ok e1 (space_nil (7 + d.length + 1 + 7))
  have e3 := mapP_ok (f := xrefFold) e2
  have hfold : xrefFold [((0, (digitsVal d : Int)), [((9, 0), true)])] =
      Xref.mk [(0, XrefEntry.normal 9 0)] 0 := rfl
  rw [hfold] at e3
  have hpos : 7 + d.length + 1 + 7 = 15 + d.length := by omega
  rw [hpos] at e3
  exact e3

/-- Witness for C3's amended theorem: declared count 2 with the single entry
9 0 n parses to the one-entry mapping. -/
theorem claim_c3_witness :
    xref ([120, 114, 101, 102, 10, 48, 32] ++ [50] ++ [10, 57, 32, 48, 32, 110, 32, 10]) 0 =
      .ok (Xref.mk [(0, XrefEntry.normal 9 0)] 0) [] (15 + 1) :=
  claim_c3_xref_section_greedy [50] (by decide) (by decide) (by decide)

/- C1: stream payload length resolution. -/

theorem seqL_ok_inv {α β : Type} {p : Parser α} {q : Parser β} {l : List Nat} {pos : Nat}
    {a : α} {l2 : List Nat} {p2 : Nat} (h : seqL p q l pos = .ok a l2 p2) :
    ∃ l1 p1 b, p l pos = .ok a l1 p1 ∧ q l1 p1 = .ok b l2 p2 := by
  unfold seqL bindP mapP pureP at h
  rcases hp : p l pos with ⟨a1, l1, p1⟩ | _ | _ <;> rw [hp] at h
  · simp only [bindP] at h
    rcases hq : q l1 p1 with ⟨b1, l3, p3⟩ | _ | _ <;> rw [hq] at h <;> cases h
    exact ⟨l1, p1, b1, rfl, hq⟩
  · cases h
  · cases h

theorem takeN_ok_inv {k : Nat} {l : List Nat} {pos : Nat} {s r : List Nat} {p1 : Nat}
    (h : takeN k l pos = .ok s r p1) : s = l.take k := by
  unfold takeN at h
  split at h
  · cases h; rfl
  · cases h

/-- C1: in the stream rule, once the dictionary, the stream keyword and the
end of line have been consumed, (a) a Length that resolves to an integer n
makes the payload exactly the first n bytes of the remainder, with the
optional end of line and the endstream keyword following; (b) an unresolved
Length yields the deferred-position variant recording the payload-start
offset, not an error; (c) a Length that is a Reference the Reader resolves
to Integer n resolves to exactly the same length n as a direct Integer n,
making the two parses identical from that point; (d) a Reference the Reader
cannot resolve to an integer leaves the length unresolved. -/
theorem claim_c1_stream_length (reader : Reader) (input : List Nat) (pos : Nat)
    (dict : Dict) (rest : List Nat) (pos1 : Nat)
    (hd : streamHead input pos = .ok dict rest pos1) :
    (∀ (n : Int) (s rest2 : List Nat) (pos2 : Nat),
      lengthOf reader dict = some n →
      seqL (seqL (takeN (intToUsize n)) (optP eol))
        (expectP (seqNatsP [101, 110, 100, 115, 116, 114, 101, 97, 109])) rest pos1 =
          .ok s rest2 pos2 →
      stream reader input pos = .ok (dict, StreamData.bytes s) rest2 pos2 ∧
        s = rest.take (intToUsize n)) ∧
    (lengthOf reader dict = none →
      stream reader input pos = .ok (dict, StreamData.deferred pos1) rest pos1) ∧
    (∀ (id : Nat × Nat) (n : Int),
      dictGet dict [76, 101, 110, 103, 116, 104] = some (.reference id) →
      reader id = some (.integer n) →
      lengthOf reader dict = some n) ∧
    (∀ id : Nat × Nat,
      dictGet dict [76, 101, 110, 103, 116, 104] = some (.reference id) →
      (reader id).bind Object.as_i64 = none →
      lengthOf reader dict = none) := by
  refine ⟨?_, ?_, ?_, ?_⟩
  · intro n s rest2 pos2 hn hrun
    constructor
    · unfold stream
      rw [bindP_ok hd]
      simp only [hn]
      exact mapP_ok hrun
    · obtain ⟨l1, p1, b, h1, _⟩ := seqL_ok_inv hrun
      obtain ⟨l1a, p1a, ba, h1a, _⟩ := seqL_ok_inv h1
      exact takeN_ok_inv h1a
  · intro hnone
    unfold stream
    rw [bindP_ok hd]
    simp only [hnone]
    exact mapP_ok (show posP rest pos1 = .ok pos1 rest pos1 from rfl)
  · intro id n h1 h2
    unfold lengthOf
    rw [h1]
    simp [Object.as_reference, h2, Object.as_i64]
  · intro id h1 h2
    unfold lengthOf
    rw [h1]
    simp [Object.as_reference, h2]

/-- Witness for C1: with the dictionary Length 5 the payload is the five
bytes 12345; with Length as reference (1, 0) and a Reader resolving it to
Integer 5 the payload is identical; with an unresolving Reader the result is
the deferred variant at the payload-start offset 24. -/
theorem claim_c1_witness :
    stream (fun id => if id = (1, 0) then some (Object.integer 5) else none)
      [60, 60, 47, 76, 101, 110, 103, 116, 104, 32, 49, 32, 48, 32, 82, 62, 62,
        115, 116, 114, 101, 97, 109, 10, 49, 50, 51, 52, 53, 10,
        101, 110, 100, 115, 116, 114, 101, 97, 109] 0 =
      .ok ([([76, 101, 110, 103, 116, 104], Object.reference (1, 0))],
        StreamData.bytes [49, 50, 51, 52, 53]) [] 39 ∧
    lengthOf (fun id => if id = (1, 0) then some (Object.integer 5) else none)
      [([76, 101, 110, 103, 116, 104], Object.reference (1, 0))] = some 5 ∧
    stream (fun _ => none)
      [60, 60, 47, 76, 101, 110, 103, 116, 104, 32, 53, 62, 62,
        115, 116, 114, 101, 97, 109, 10, 49, 50, 51, 52, 53, 10,
        101, 110, 100, 115, 116, 114, 101, 97, 109] 0 =
      .ok ([([76, 101, 110, 103, 116, 104], Object.integer 5)],
        StreamData.bytes [49, 50, 51, 52, 53]) [] 35 ∧
    stream (fun _ => none)
      [60, 60, 47, 76, 101, 110, 103, 116, 104, 32, 49, 32, 48, 32, 82, 62, 62,
        115, 116, 114, 101, 97, 109, 10, 49, 50, 51, 52, 53, 10,
        101, 110, 100, 115, 116, 114, 101, 97, 109] 0 =
      .ok ([([76, 101, 110, 103, 116, 104], Object.reference (1, 0))],
        StreamData.deferred 24)
        [49, 50, 51, 52, 53, 10, 101, 110, 100, 115, 116, 114, 101, 97, 109] 24 := by
  refine ⟨?_, ?_, ?_, ?_⟩
  · exact ((claim_c1_stream_length _ _ 0 _
      [49, 50, 51, 52, 53, 10, 101, 110, 100, 115, 116, 114, 101, 97, 109] 24 (by rfl)).1
      5 [49, 50, 51, 52, 53] [] 39 (by rfl) (by rfl)).1
  · exact (claim_c1_stream_length
      (fun id => if id = (1, 0) then some (Object.integer 5) else none)
      [60, 60, 47, 76, 101, 110, 103, 116, 104, 32, 49, 32, 48, 32, 82, 62, 62,
        115, 116, 114, 101, 97, 109, 10, 49, 50, 51, 52, 53, 10,
        101, 110, 100, 115, 116, 114, 101, 97, 109] 0 _
      [49, 50, 51, 52, 53, 10, 101, 110, 100, 115, 116, 114, 101, 97, 109] 24 (by rfl)).2.2.1
      (1, 0) 5 (by rfl) (by rfl)
  · exact ((claim_c1_stream_length _ _ 0 _
      [49, 50, 51, 52, 53, 10, 101, 110, 100, 115, 116, 114, 101, 97, 109] 20 (by rfl)).1
      5 [49, 50, 51, 52, 53] [] 35 (by rfl) (by rfl)).1
  · exact (claim_c1_stream_length _ _ 0 _
      [49, 50, 51, 52, 53, 10, 101, 110, 100, 115, 116, 114, 101, 97, 109] 24 (by rfl)).2.1
      (by rfl)

/- C6: the indirect-reference alternative precedes the integer alternative. -/

theorem altP_ok_inv {α : Type} {p q : Parser α} {l : List Nat} {pos : Nat}
    {a : α} {r : List Nat} {p1 : Nat} (h : altP p q l pos = .ok a r p1) :
    p l pos = .ok a r p1 ∨ (p l pos = .err ∧ q l pos = .ok a r p1) := by
  unfold altP at h
  rcases hp : p l pos with ⟨a1, r1, q1⟩ | _ | _ <;> rw [hp] at h
  · cases h; exact Or.inl rfl
  · exact Or.inr ⟨rfl, h⟩
  · cases h

theorem mapP_ok_inv {α β : Type} {p : Parser α} {f : α → β} {l : List Nat} {pos : Nat}
    {b : β} {r : List Nat} {p1 : Nat} (h : mapP p f l pos = .ok b r p1) :
    ∃ a, p l pos = .ok a r p1 ∧ b = f a := by
  unfold mapP bindP pureP at h
  rcases hp : p l pos with ⟨a1, r1, q1⟩ | _ | _ <;> rw [hp] at h
  · cases h; exact ⟨a1, rfl, rfl⟩
  · cases h
  · cases h

theorem head?_append_ne {w x : List Nat} (h : w ≠ []) : (w ++ x).head? = w.head? := by
  cases w with
  | nil => exact absurd rfl h
  | cons c t => rfl

theorem mem_of_head?_eq {w : List Nat} {b : Nat} (h : w.head? = some b) : b ∈ w := by
  cases w with
  | nil => simp at h
  | cons c t => simp at h; simp [h]

theorem ws_not_digitNats {b : Nat} (h : is_whitespace b = true) :
    digitNats.contains b = false := by
  apply Bool.eq_false_iff.mpr
  intro hc
  have h1 := (mem_digitNats_iff b).mp hc
  simp [is_whitespace, decide_eq_true_eq] at h
  omega

theorem digit_not_ws_pct {b : Nat} (h : 48 ≤ b ∧ b ≤ 57) :
    is_whitespace b = false ∧ b ≠ 37 := by
  constructor
  · apply Bool.eq_false_iff.mpr
    intro hw
    simp [is_whitespace, decide_eq_true_eq] at hw
    omega
  · omega

/-- keyword alternatives null/true/false all fail on a digit head. -/
theorem keywords_err_digit {c : Nat} (t : List Nat) (pos : Nat) (hc : 48 ≤ c ∧ c ≤ 57) :
    null (c :: t) pos = .err ∧ boolean (c :: t) pos = .err := by
  refine ⟨mapP_err (seqNatsP_err_head _ _ _ (by omega)), ?_⟩
  unfold boolean
  rw [altP_err1 (mapP_err (seqNatsP_err_head _ _ _ (by omega)))]
  exact mapP_err (seqNatsP_err_head _ _ _ (by omega))

/-- object_id consumes two whitespace-separated digit runs (and trailing
whitespace) when both values fit their machine widths. -/
theorem object_id_parses (d1 w1 d2 w2 rest : List Nat) (pos : Nat)
    (hd1ne : d1 ≠ []) (hd1 : ∀ b ∈ d1, 48 ≤ b ∧ b ≤ 57) (hb1 : digitsVal d1 < 2 ^ 32)
    (hw1ne : w1 ≠ []) (hw1 : ∀ b ∈ w1, is_whitespace b = true)
    (hd2ne : d2 ≠ []) (hd2 : ∀ b ∈ d2, 48 ≤ b ∧ b ≤ 57) (hb2 : digitsVal d2 < 2 ^ 16)
    (hw2ne : w2 ≠ []) (hw2 : ∀ b ∈ w2, is_whitespace b = true)
    (hrest : ∀ b, rest.head? = some b → is_whitespace b = false ∧ b ≠ 37) :
    object_id (d1 ++ (w1 ++ (d2 ++ (w2 ++ rest)))) pos =
      .ok (digitsVal d1, digitsVal d2) rest
        (pos + d1.length + w1.length + d2.length + w2.length) := by
  have hw1head : ∀ b, (w1 ++ (d2 ++ (w2 ++ rest))).head? = some b →
      digitNats.contains b = false := by
    intro b hb
    rw [head?_append_ne hw1ne] at hb
    exact ws_not_digitNats (hw1 b (mem_of_head?_eq hb))
  have hd2head : ∀ b, (d2 ++ (w2 ++ rest)).head? = some b →
      is_whitespace b = false ∧ b ≠ 37 := by
    intro b hb
    rw [head?_append_ne hd2ne] at hb
    exact digit_not_ws_pct (hd2 b (mem_of_head?_eq hb))
  have hw2head : ∀ b, (w2 ++ rest).head? = some b → digitNats.contains b = false := by
    intro b hb
    rw [head?_append_ne hw2ne] at hb
    exact ws_not_digitNats (hw2 b (mem_of_head?_eq hb))
  have hid : convertP (repeat1 (oneOfP digitNats))
      (fun ds => if digitsVal ds < 2 ^ 32 then some (digitsVal ds) else none)
      (d1 ++ (w1 ++ (d2 ++ (w2 ++ rest)))) pos =
      .ok (digitsVal d1) (w1 ++ (d2 ++ (w2 ++ rest))) (pos + d1.length) :=
    convertP_ok
      (repeat1_class_append (oneOfP_class digitNats) d1 _ pos hd1ne
        (fun b hb => (mem_digitNats_iff b).mpr (hd1 b hb)) hw1head)
      (by rw [if_pos hb1])
  have hsp1 : space (w1 ++ (d2 ++ (w2 ++ rest))) (pos + d1.length) =
      .ok () (d2 ++ (w2 ++ rest)) (pos + d1.length + w1.length) :=
    space_append w1 _ _ hw1 hd2head
  have hgen : convertP (repeat1 (oneOfP digitNats))
      (fun ds => if digitsVal ds < 2 ^ 16 then some (digitsVal ds) else none)
      (d2 ++ (w2 ++ rest)) (pos + d1.length + w1.length) =
      .ok (digitsVal d2) (w2 ++ rest) (pos + d1.length + w1.length + d2.length) :=
    convertP_ok
      (repeat1_class_append (oneOfP_class digitNats) d2 _ _ hd2ne
        (fun b hb => (mem_digitNats_iff b).mpr (hd2 b hb)) hw2head)
      (by rw [if_pos hb2])
  have hsp2 : space (w2 ++ rest) (pos + d1.length + w1.length + d2.length) =
      .ok () rest (pos + d1.length + w1.length + d2.length + w2.length) :=
    space_append w2 _ _ hw2 hrest
  exact seqL_ok (pairP_ok (seqL_ok hid hsp1) hgen) hsp2

/-- C6: the indirect-reference alternative is tried before the plain-integer
alternative: every input of the shape digits, whitespace, digits, whitespace,
R (object number below 2^32, generation below 2^16) parses as a Reference
consuming all three tokens; and whenever the object parser instead returns an
Integer, the reference alternative failed at that position. -/
theorem claim_c6_reference_before_integer :
    (∀ (d1 w1 d2 w2 : List Nat) (pos : Nat),
      d1 ≠ [] → (∀ b ∈ d1, 48 ≤ b ∧ b ≤ 57) → digitsVal d1 < 2 ^ 32 →
      w1 ≠ [] → (∀ b ∈ w1, is_whitespace b = true) →
      d2 ≠ [] → (∀ b ∈ d2, 48 ≤ b ∧ b ≤ 57) → digitsVal d2 < 2 ^ 16 →
      w2 ≠ [] → (∀ b ∈ w2, is_whitespace b = true) →
      direct_object (d1 ++ (w1 ++ (d2 ++ (w2 ++ [82])))) pos =
        .ok (Object.reference (digitsVal d1, digitsVal d2)) []
          (pos + d1.length + w1.length + d2.length + w2.length + 1)) ∧
    (∀ (input : List Nat) (pos : Nat) (n : Int) (rest : List Nat) (pos1 : Nat),
      direct_object input pos = .ok (Object.integer n) rest pos1 →
      refParser input pos = .err) := by
  constructor
  · intro d1 w1 d2 w2 pos hd1ne hd1 hb1 hw1ne hw1 hd2ne hd2 hb2 hw2ne hw2
    have hoid := object_id_parses d1 w1 d2 w2 [82] pos hd1ne hd1 hb1 hw1ne hw1
      hd2ne hd2 hb2 hw2ne hw2 (by intro b hb; simp at hb; subst hb; exact ⟨rfl, by omega⟩)
    have href : refParser (d1 ++ (w1 ++ (d2 ++ (w2 ++ [82])))) pos =
        .ok (Object.reference (digitsVal d1, digitsVal d2)) []
          (pos + d1.length + w1.length + d2.length + w2.length + 1) :=
      seqL_ok (mapP_ok hoid) (symP_ok 82 [] _)
    obtain ⟨c, d1t, rfl⟩ : ∃ c d1t, d1 = c :: d1t := by
      cases d1 with
      | nil => exact absurd rfl hd1ne
      | cons c t => exact ⟨c, t, rfl⟩
    have hkw := keywords_err_digit (d1t ++ (w1 ++ (d2 ++ (w2 ++ [82])))) pos
      (hd1 c (by simp))
    unfold direct_object
    rw [direct_objectCore]
    refine seqL_ok ?_ (space_nil _)
    rw [show (c :: d1t) ++ (w1 ++ (d2 ++ (w2 ++ [82]))) =
        c :: (d1t ++ (w1 ++ (d2 ++ (w2 ++ [82])))) from rfl] at href ⊢
    rw [altP_err1 hkw.1, altP_err1 hkw.2]
    exact altP_ok1 href
  · intro input pos n rest pos1 h
    unfold direct_object at h
    rw [direct_objectCore] at h
    obtain ⟨l1, p1, b, hAlt, _⟩ := seqL_ok_inv h
    rcases altP_ok_inv hAlt with hnull | ⟨hnullerr, hAlt2⟩
    · obtain ⟨a, _, hs⟩ := mapP_ok_inv hnull
      simp [null] at hs
    rcases altP_ok_inv hAlt2 with hbool | ⟨hboolerr, hAlt3⟩
    · unfold boolean at hbool
      rcases altP_ok_inv hbool with h1 | ⟨_, h2⟩
      · obtain ⟨a, _, hs⟩ := mapP_ok_inv h1; simp at hs
      · obtain ⟨a, _, hs⟩ := mapP_ok_inv h2; simp at hs
    rcases altP_ok_inv hAlt3 with href | ⟨hreferr, _⟩
    · obtain ⟨l2, p2, bb, hmap, _⟩ := seqL_ok_inv href
      obtain ⟨a, _, hs⟩ := mapP_ok_inv hmap
      simp at hs
    · exact hreferr

/-- Witness for C6: the input 1 SP 0 SP R parses to Reference (1, 0), and on
the single-digit input 7 — parsed as Integer 7 — the reference alternative
fails. -/
theorem claim_c6_witness :
    direct_object [49, 32, 48, 32, 82] 0 = .ok (Object.reference (1, 0)) [] 5 ∧
    refParser [55] 0 = .err := by
  constructor
  · have := claim_c6_reference_before_integer.1 [49] [32] [48] [32] 0
      (by decide) (by decide) (by decide) (by decide) (by decide)
      (by decide) (by decide) (by decide) (by decide) (by decide)
    simpa using this
  · exact claim_c6_reference_before_integer.2 [55] 0 7 [] 1 (by rfl)

/- C8: the content-stream operator token. -/

theorem operatorItem_class :
    IsNatClassP (altP (satisfyP isAlphaB) (oneOfP [42, 39, 34]))
      (fun c => isAlphaB c || ([42, 39, 34] : List Nat).contains c) := by
  constructor
  · intro pos; rfl
  · intro c t pos
    by_cases ha : isAlphaB c
    · simp [altP, satisfyP, ha]
    · by_cases hb : ([42, 39, 34] : List Nat).contains c
      · simp [altP, satisfyP, oneOfP, ha, hb]
      · simp [altP, satisfyP, oneOfP, ha, hb]

theorem opByte_iff (b : Nat) :
    ((fun c => isAlphaB c || ([42, 39, 34] : List Nat).contains c) b = true) ↔
      (isAlphaB b = true ∨ b = 42 ∨ b = 39 ∨ b = 34) := by
  have hc : (([42, 39, 34] : List Nat).contains b = true) ↔ b ∈ ([42, 39, 34] : List Nat) :=
    List.elem_iff
  simp only [Bool.or_eq_true, hc, List.mem_cons, List.not_mem_nil, or_false]

/-- Counterexample to C8: the operator rule accepts the two-byte token T
asterisk, which is neither a run of purely alphabetic bytes nor a single
punctuation character — alphabetic and punctuation bytes mix freely inside
one operator token. -/
theorem claim_c8_counterexample :
    operator [84, 42] 0 = .ok [84, 42] [] 2 ∧
    ¬((∀ b ∈ ([84, 42] : List Nat), isAlphaB b = true) ∨
      ([84, 42] : List Nat) = [42] ∨ ([84, 42] : List Nat) = [39] ∨
      ([84, 42] : List Nat) = [34]) :=
  ⟨by decide, by decide⟩

/-- C8 amended: a content-stream operator token is a maximal nonempty run of
bytes each of which is either an ASCII alphabetic byte or one of the three
punctuation operator bytes asterisk, apostrophe, double quote; alphabetic
and punctuation bytes may mix within one token. -/
theorem claim_c8_operator_token (run rest : List Nat) (pos : Nat)
    (hne : run ≠ [])
    (hrun : ∀ b ∈ run, isAlphaB b = true ∨ b = 42 ∨ b = 39 ∨ b = 34)
    (hrest : ∀ b, rest.head? = some b → ¬(isAlphaB b = true ∨ b = 42 ∨ b = 39 ∨ b = 34)) :
    operator (run ++ rest) pos = .ok run rest (pos + run.length) := by
  unfold operator
  exact repeat1_class_append operatorItem_class run rest pos hne
    (fun b hb => (opByte_iff b).mpr (hrun b hb))
    (fun b hb => Bool.eq_false_iff.mpr (fun hx => hrest b hb ((opByte_iff b).mp hx)))

/-- Witness for C8's amended theorem: BT followed by a space parses to the
operator token BT, stopping at the space. -/
theorem claim_c8_witness : operator [66, 84, 32] 0 = .ok [66, 84] [32] 2 := by
  have := claim_c8_operator_token [66, 84] [32] 0 (by decide) (by decide) (by decide)
  exact this

/- C10: a hash that does not start a two-hex-digit escape ends the name. -/

/-- One decoded token of a name body: a plain regular byte or a
hash-hex-hex escape. -/
inductive NameTok : Type where
  | plain (c : Nat)
  | esc (h1 h2 : Nat)
deriving DecidableEq, Repr

def nameTokNats : NameTok → List Nat
  | .plain c => [c]
  | .esc h1 h2 => [35, h1, h2]

def nameTokByte : NameTok → Nat
  | .plain c => c
  | .esc h1 h2 => 16 * hexVal h1 + hexVal h2

def validNameTok : NameTok → Prop
  | .plain c => c ≠ 35 ∧ is_regular c = true
  | .esc h1 h2 => isHexDigitB h1 = true ∧ isHexDigitB h2 = true

/-- The repeated item of the name parser on a plain regular byte. -/
theorem nameItem_plain {c : Nat} (t : List Nat) (q : Nat)
    (hc : c ≠ 35 ∧ is_regular c = true) :
    altP (seqR (seqNatsP [35]) hex_char)
      (convertP (takeN 1) (fun cs =>
        match cs with
        | [b] => if b ≠ 35 ∧ is_regular b then some b else none
        | _ => none)) (c :: t) q = .ok c t (q + 1) := by
  rw [altP_err1 (seqR_err1 (seqNatsP_err_head _ _ _ hc.1))]
  have htake : takeN 1 (c :: t) q = .ok [c] t (q + 1) := by
    have := takeN_append [c] t q
    simpa using this
  refine convertP_ok htake ?_
  show (if c ≠ 35 ∧ is_regular c = true then some c else none) = some c
  rw [if_pos hc]

/-- The repeated item of the name parser on a hash-hex-hex escape. -/
theorem nameItem_esc {h1 h2 : Nat} (t : List Nat) (q : Nat)
    (hh1 : isHexDigitB h1 = true) (hh2 : isHexDigitB h2 = true) :
    altP (seqR (seqNatsP [35]) hex_char)
      (convertP (takeN 1) (fun cs =>
        match cs with
        | [b] => if b ≠ 35 ∧ is_regular b then some b else none
        | _ => none)) (35 :: h1 :: h2 :: t) q = .ok (16 * hexVal h1 + hexVal h2) t (q + 3) := by
  apply altP_ok1
  have htag : seqNatsP [35] (35 :: h1 :: h2 :: t) q = .ok [35] (h1 :: h2 :: t) (q + 1) := by
    have := seqNatsP_append [35] (h1 :: h2 :: t) q
    simpa using this
  rw [seqR_ok htag]
  have htk : takeWhileMN 2 2 isHexDigitB (h1 :: h2 :: t) (q + 1) =
      .ok [h1, h2] t (q + 1 + 2) := by
    unfold takeWhileMN
    simp only [List.takeWhile_cons, hh1, hh2, if_pos, List.take_succ_cons, List.take_zero]
    norm_num
  refine convertP_ok htk ?_
  simp only [List.foldl]
  norm_num

theorem convertP_none {α β : Type} {p : Parser α} {f : α → Option β} {l : List Nat} {pos : Nat}
    {a : α} {l1 : List Nat} {p1 : Nat}
    (h1 : p l pos = .ok a l1 p1) (h2 : f a = none) :
    convertP p f l pos = .err := by
  simp [convertP, h1, h2]

/-- The repeated item of the name parser fails at a hash that is not
followed by two hex digits. -/
theorem nameItem_err_hash (rest : List Nat) (q : Nat)
    (hbad : ∀ h1 h2 t, rest = h1 :: h2 :: t → ¬(isHexDigitB h1 = true ∧ isHexDigitB h2 = true)) :
    altP (seqR (seqNatsP [35]) hex_char)
      (convertP (takeN 1) (fun cs =>
        match cs with
        | [b] => if b ≠ 35 ∧ is_regular b then some b else none
        | _ => none)) (35 :: rest) q = .err := by
  have htag : seqNatsP [35] (35 :: rest) q = .ok [35] rest (q + 1) := by
    have := seqNatsP_append [35] rest q
    simpa using this
  have hhex : hex_char rest (q + 1) = .err := by
    unfold hex_char
    apply convertP_err1
    unfold takeWhileMN
    have hlen : ((rest.takeWhile isHexDigitB).take 2).length < 2 := by
      match rest with
      | [] => simp
      | [h1] =>
        by_cases hh : isHexDigitB h1 <;> simp [List.takeWhile, hh]
      | h1 :: h2 :: t =>
        have := hbad h1 h2 t rfl
        by_cases hh1 : isHexDigitB h1
        · have hh2 : isHexDigitB h2 = false := by
            rcases Bool.eq_false_or_eq_true (isHexDigitB h2) with h | h
            · exact absurd ⟨hh1, h⟩ this
            · exact h
          simp [List.takeWhile, hh1, hh2]
        · simp [List.takeWhile, hh1]
    rw [if_neg (by omega)]
  rw [altP_err1 ((seqR_ok htag).trans hhex)]
  have htake : takeN 1 (35 :: rest) q = .ok [35] rest (q + 1) := by
    have := takeN_append [35] rest q
    simpa using this
  exact convertP_none htake (by simp)

theorem nameBody_runs :
    ∀ (toks : List NameTok) (rest : List Nat) (pos : Nat),
      (∀ t ∈ toks, validNameTok t) →
      (∀ h1 h2 t, rest = h1 :: h2 :: t →
        ¬(isHexDigitB h1 = true ∧ isHexDigitB h2 = true)) →
      RunsTo (altP (seqR (seqNatsP [35]) hex_char)
          (convertP (takeN 1) (fun cs =>
            match cs with
            | [b] => if b ≠ 35 ∧ is_regular b then some b else none
            | _ => none)))
        ((toks.map nameTokNats).flatten ++ 35 :: rest) pos
        (toks.map nameTokByte) (35 :: rest)
        (pos + ((toks.map nameTokNats).flatten).length) := by
  intro toks
  induction toks with
  | nil =>
    intro rest pos _ hbad
    exact runsTo_nil (nameItem_err_hash rest pos hbad)
  | cons tok toks ih =>
    intro rest pos hv hbad
    have hvtok := hv tok (by simp)
    have hvrest : ∀ t ∈ toks, validNameTok t := fun t ht => hv t (by simp [ht])
    have hrec := ih rest (pos + (nameTokNats tok).length) hvrest hbad
    cases tok with
    | plain c =>
      have hstep := nameItem_plain ((toks.map nameTokNats).flatten ++ 35 :: rest) pos hvtok
      have h := runsTo_cons hstep (by simp) hrec
      have heq : pos + (nameTokNats (NameTok.plain c)).length +
          ((toks.map nameTokNats).flatten).length =
          pos + (((NameTok.plain c :: toks).map nameTokNats).flatten).length := by
        simp [nameTokNats]
        omega
      rw [heq] at h
      exact h
    | esc h1 h2 =>
      have hstep := nameItem_esc ((toks.map nameTokNats).flatten ++ 35 :: rest) pos
        hvtok.1 hvtok.2
      have h := runsTo_cons hstep (by simp; omega) hrec
      have heq : pos + (nameTokNats (NameTok.esc h1 h2)).length +
          ((toks.map nameTokNats).flatten).length =
          pos + (((NameTok.esc h1 h2 :: toks).map nameTokNats).flatten).length := by
        simp [nameTokNats]
        omega
      rw [heq] at h
      exact h

/-- C10: when the name parser meets a hash that is not followed by exactly
two hex digits, the name ends successfully right there: whatever mix of
plain regular bytes and valid hash escapes was decoded so far is returned,
and the hash with everything after it is left unconsumed — a bare hash is
neither consumed as a literal hash byte nor a failure of the name rule. -/
theorem claim_c10_name_bare_hash (toks : List NameTok) (rest : List Nat) (pos : Nat)
    (hv : ∀ t ∈ toks, validNameTok t)
    (hbad : ∀ h1 h2 t, rest = h1 :: h2 :: t →
      ¬(isHexDigitB h1 = true ∧ isHexDigitB h2 = true)) :
    name (47 :: ((toks.map nameTokNats).flatten ++ 35 :: rest)) pos =
      .ok (toks.map nameTokByte) (35 :: rest)
        (pos + 1 + ((toks.map nameTokNats).flatten).length) := by
  unfold name
  have htag : seqNatsP [47] (47 :: ((toks.map nameTokNats).flatten ++ 35 :: rest)) pos =
      .ok [47] ((toks.map nameTokNats).flatten ++ 35 :: rest) (pos + 1) := by
    have := seqNatsP_append [47] ((toks.map nameTokNats).flatten ++ 35 :: rest) pos
    simpa using this
  rw [seqR_ok htag]
  exact repeat0_runsTo (nameBody_runs toks rest (pos + 1) hv hbad)

/-- Witness for C10: the name AB followed by hash z 9 decodes to the bytes
AB and leaves hash z 9 unconsumed. -/
theorem claim_c10_witness :
    name [47, 65, 66, 35, 122, 57] 0 = .ok [65, 66] [35, 122, 57] 3 := by
  have h := claim_c10_name_bare_hash [NameTok.plain 65, NameTok.plain 66] [122, 57] 0
    (by
      intro t ht
      simp [List.mem_cons] at ht
      rcases ht with rfl | rfl
      · exact ⟨by decide, by decide⟩
      · exact ⟨by decide, by decide⟩)
    (by
      intro h1 h2 t heq
      cases heq
      decide)
  exact h

/- C9: hexadecimal string literals. -/

theorem hex_not_ws {b : Nat} (h : isHexDigitB b = true) : is_whitespace b = false := by
  simp [isHexDigitB, decide_eq_true_eq] at h
  apply Bool.eq_false_iff.mpr
  intro hw
  simp [is_whitespace, decide_eq_true_eq] at hw
  omega

theorem drop_takeWhile (cls : Nat → Bool) :
    ∀ l : List Nat, l.drop (l.takeWhile cls).length = l.dropWhile cls := by
  intro l
  induction l with
  | nil => rfl
  | cons c t ih =>
    by_cases hc : cls c
    · rw [List.takeWhile_cons_of_pos hc, List.dropWhile_cons_of_pos hc]
      simpa using ih
    · rw [List.takeWhile_cons_of_neg hc, List.dropWhile_cons_of_neg hc]
      rfl

theorem white_space_eq (l : List Nat) (pos : Nat) :
    white_space l pos =
      .ok () (l.dropWhile is_whitespace) (pos + (l.takeWhile is_whitespace).length) := by
  have h : takeWhileP is_whitespace l pos =
      .ok (l.takeWhile is_whitespace) (l.dropWhile is_whitespace)
        (pos + (l.takeWhile is_whitespace).length) := by
    show PResult.ok (l.takeWhile is_whitespace) (l.drop (l.takeWhile is_whitespace).length)
      (pos + (l.takeWhile is_whitespace).length) = _
    rw [drop_takeWhile]
  exact mapP_ok h

theorem takeWhileMN_hex_cons {d1 d2 : Nat} (t : List Nat) (q : Nat)
    (h1 : isHexDigitB d1 = true) (h2 : isHexDigitB d2 = true) :
    takeWhileMN 2 2 isHexDigitB (d1 :: d2 :: t) q = .ok [d1, d2] t (q + 2) := by
  unfold takeWhileMN
  simp only [List.takeWhile_cons, h1, h2, if_pos, List.take_succ_cons, List.take_zero]
  norm_num

theorem hex_char_cons {d1 d2 : Nat} (t : List Nat) (q : Nat)
    (h1 : isHexDigitB d1 = true) (h2 : isHexDigitB d2 = true) :
    hex_char (d1 :: d2 :: t) q = .ok (16 * hexVal d1 + hexVal d2) t (q + 2) := by
  refine convertP_ok (takeWhileMN_hex_cons t q h1 h2) ?_
  simp only [List.foldl]
  norm_num

/-- A whitespace run followed by two adjacent hex digits is one successful
pair item of the hexadecimal-string body. -/
theorem hexItem_ok (w : List Nat) {d1 d2 : Nat} (t : List Nat) (q : Nat)
    (hw : ∀ b ∈ w, is_whitespace b = true)
    (h1 : isHexDigitB d1 = true) (h2 : isHexDigitB d2 = true) :
    seqR white_space hex_char (w ++ d1 :: d2 :: t) q =
      .ok (16 * hexVal d1 + hexVal d2) t (q + w.length + 2) := by
  have hws : white_space (w ++ d1 :: d2 :: t) q = .ok () (d1 :: d2 :: t) (q + w.length) :=
    mapP_ok (takeWhileP_append w (d1 :: d2 :: t) q hw
      (fun b hb => by simp at hb; exact hb ▸ hex_not_ws h1))
  rw [seqR_ok hws]
  exact hex_char_cons t (q + w.length) h1 h2

/-- The pair item fails when no two adjacent hex digits follow the
whitespace run. -/
theorem hexItem_err (l : List Nat) (q : Nat)
    (h : ∀ b, (l.dropWhile is_whitespace).head? = some b → isHexDigitB b = false) :
    seqR white_space hex_char l q = .err := by
  rw [seqR_ok (white_space_eq l q)]
  apply convertP_err1
  unfold takeWhileMN
  rw [if_neg]
  match hcase : l.dropWhile is_whitespace with
  | [] => simp
  | b :: t =>
    have hb : isHexDigitB b = false := h b (by rw [hcase]; rfl)
    simp [List.takeWhile, hb]

theorem seqR_ok_inv {α β : Type} {p : Parser α} {q : Parser β} {l : List Nat} {pos : Nat}
    {b : β} {l2 : List Nat} {p2 : Nat} (h : seqR p q l pos = .ok b l2 p2) :
    ∃ a l1 p1, p l pos = .ok a l1 p1 ∧ q l1 p1 = .ok b l2 p2 := by
  unfold seqR bindP at h
  rcases hp : p l pos with ⟨a1, l1, p1⟩ | _ | _ <;> rw [hp] at h
  · exact ⟨a1, l1, p1, rfl, h⟩
  · cases h
  · cases h

theorem convertP_ok_inv {α β : Type} {p : Parser α} {f : α → Option β} {l : List Nat}
    {pos : Nat} {b : β} {r : List Nat} {p1 : Nat} (h : convertP p f l pos = .ok b r p1) :
    ∃ a, p l pos = .ok a r p1 ∧ f a = some b := by
  unfold convertP at h
  rcases hp : p l pos with ⟨a1, r1, q1⟩ | _ | _ <;> rw [hp] at h
  · have h2 : (match f a1 with
      | some b => PResult.ok b r1 q1
      | none => (PResult.err : PResult β)) = .ok b r p1 := h
    rcases hf : f a1 with _ | b1 <;> rw [hf] at h2
    · cases h2
    · cases h2; exact ⟨a1, rfl, hf⟩
  · cases h
  · cases h

theorem takeWhileMN_hex_ok_inv {l : List Nat} {pos : Nat} {t r : List Nat} {p1 : Nat}
    (h : takeWhileMN 2 2 isHexDigitB l pos = .ok t r p1) :
    ∃ d1 d2, t = [d1, d2] ∧ isHexDigitB d1 = true ∧ isHexDigitB d2 = true ∧
      l = d1 :: d2 :: r := by
  have h2 : (if 2 ≤ ((l.takeWhile isHexDigitB).take 2).length then
      PResult.ok ((l.takeWhile isHexDigitB).take 2)
        (l.drop ((l.takeWhile isHexDigitB).take 2).length)
        (pos + ((l.takeWhile isHexDigitB).take 2).length)
    else (PResult.err : PResult (List Nat))) = .ok t r p1 := h
  split at h2
  case isTrue hlen =>
    obtain ⟨ht, hr, _⟩ : t = (l.takeWhile isHexDigitB).take 2 ∧
        r = l.drop ((l.takeWhile isHexDigitB).take 2).length ∧
        p1 = pos + ((l.takeWhile isHexDigitB).take 2).length := by
      cases h2; exact ⟨rfl, rfl, rfl⟩
    have hle : ((l.takeWhile isHexDigitB).take 2).length ≤ 2 := List.length_take_le 2 _
    have hlen2 : ((l.takeWhile isHexDigitB).take 2).length = 2 := le_antisymm hle hlen
    obtain ⟨d1, d2, hdd⟩ := List.length_eq_two.mp (ht ▸ hlen2 : t.length = 2)
    have hpre : (l.takeWhile isHexDigitB).take 2 <+: l :=
      List.IsPrefix.trans (List.take_prefix 2 _) (List.takeWhile_prefix _)
    have hmemhex : ∀ b ∈ (l.takeWhile isHexDigitB).take 2, isHexDigitB b = true :=
      fun b hb => mem_takeWhile_cls (List.take_subset 2 _ hb)
    refine ⟨d1, d2, hdd, ?_, ?_, ?_⟩
    · exact hmemhex d1 (by rw [← ht, hdd]; simp)
    · exact hmemhex d2 (by rw [← ht, hdd]; simp)
    · have htake : (l.takeWhile isHexDigitB).take 2 = l.take 2 := by
        have := (List.prefix_iff_eq_take).mp hpre
        rw [hlen2] at this
        exact this
      have hsplit := List.take_append_drop 2 l
      rw [← htake, ← ht, hdd] at hsplit
      rw [hr, hlen2]
      conv_lhs => rw [← hsplit]
      rfl
  case isFalse => cases h2

/-- Inverting one successful pair item: it consumed a whitespace run and two
hex digits. -/
theorem hexItem_ok_inv {l : List Nat} {pos : Nat} {b : Nat} {l1 : List Nat} {p1 : Nat}
    (h : seqR white_space hex_char l pos = .ok b l1 p1) :
    ∃ w d1 d2, l = w ++ d1 :: d2 :: l1 ∧ (∀ x ∈ w, is_whitespace x = true) ∧
      isHexDigitB d1 = true ∧ isHexDigitB d2 = true := by
  obtain ⟨a, lw, pw, hws, hhex⟩ := seqR_ok_inv h
  have hws2 := white_space_eq l pos
  rw [hws] at hws2
  obtain ⟨hlw, _⟩ : lw = l.dropWhile is_whitespace ∧ pw = pos + (l.takeWhile is_whitespace).length := by
    cases hws2; exact ⟨rfl, rfl⟩
  obtain ⟨tk, htk, _⟩ := convertP_ok_inv hhex
  obtain ⟨d1, d2, _, hh1, hh2, hsplit⟩ := takeWhileMN_hex_ok_inv htk
  refine ⟨l.takeWhile is_whitespace, d1, d2, ?_, fun x hx => mem_takeWhile_cls hx, hh1, hh2⟩
  conv_lhs => rw [← List.takeWhile_append_dropWhile (p := is_whitespace) (l := l)]
  rw [← hlw, hsplit]

/-- Inverting a greedy run of pair items: the consumed bytes are whitespace
or hex digits and hold exactly two hex digits per decoded byte. -/
theorem hexPairs_inv {item : Parser Nat}
    (hitem : item = seqR white_space hex_char) :
    ∀ (fuel : Nat) (l : List Nat) (pos : Nat) (bs : List Nat) (rest : List Nat) (pos1 : Nat),
      repeatCore item fuel l pos = .ok bs rest pos1 →
      ∃ consumed, l = consumed ++ rest ∧
        consumed.countP (fun b => isHexDigitB b) = 2 * bs.length ∧
        (∀ b ∈ consumed, is_whitespace b = true ∨ isHexDigitB b = true) := by
  intro fuel
  induction fuel with
  | zero =>
    intro l pos bs rest pos1 h
    cases h
    exact ⟨[], by simp, by simp, by simp⟩
  | succ fuel ih =>
    intro l pos bs rest pos1 h
    unfold repeatCore at h
    rcases hstep : item l pos with ⟨a, l1, p1⟩ | _ | _ <;> rw [hstep] at h
    · simp only [] at h
      rcases hrec : repeatCore item fuel l1 p1 with ⟨as, r1, q1⟩ | _ | _ <;>
        rw [hrec] at h <;> cases h
      obtain ⟨c1, hc1, hcount1, hmem1⟩ := ih l1 p1 as rest pos1 hrec
      rw [hitem] at hstep
      obtain ⟨w, d1, d2, hsplit, hw, hh1, hh2⟩ := hexItem_ok_inv hstep
      have hwzero : w.countP (fun b => isHexDigitB b) = 0 := by
        rw [List.countP_eq_zero]
        intro b hb
        intro hx
        have hnw := hex_not_ws hx
        rw [hw b hb] at hnw
        cases hnw
      refine ⟨w ++ d1 :: d2 :: c1, ?_, ?_, ?_⟩
      · rw [hsplit, hc1]
        simp
      · rw [List.countP_append, List.countP_cons, List.countP_cons]
        simp only [hh1, hh2, if_pos]
        rw [hwzero, hcount1]
        simp [List.length_cons]
        omega
      · intro b hb
        rcases List.mem_append.mp hb with hb | hb
        · exact Or.inl (hw b hb)
        · rcases List.mem_cons.mp hb with rfl | hb
          · exact Or.inr hh1
          · rcases List.mem_cons.mp hb with rfl | hb
            · exact Or.inr hh2
            · exact hmem1 b hb
    · cases h
      exact ⟨[], by simp, by simp, by simp⟩
    · cases h

/-- The closing of a hexadecimal string consumes trailing whitespace and the
greater-than byte. -/
theorem hexClose_ok (wfin rest : List Nat) (q : Nat)
    (hw : ∀ b ∈ wfin, is_whitespace b = true) :
    seqR white_space (symP 62) (wfin ++ 62 :: rest) q = .ok 62 rest (q + wfin.length + 1) := by
  have hws : white_space (wfin ++ 62 :: rest) q = .ok () (62 :: rest) (q + wfin.length) :=
    mapP_ok (takeWhileP_append wfin (62 :: rest) q hw
      (fun b hb => by simp at hb; exact hb ▸ (by decide)))
  rw [seqR_ok hws]
  exact symP_ok 62 rest (q + wfin.length)

theorem symP_ok_inv {b : Nat} {l : List Nat} {pos : Nat} {a : Nat} {r : List Nat} {p1 : Nat}
    (h : symP b l pos = .ok a r p1) : l = b :: r := by
  cases l with
  | nil => cases h
  | cons c t =>
    by_cases hc : c = b
    · subst hc
      rw [symP_ok] at h
      cases h
      rfl
    · rw [symP_err_head t pos hc] at h
      cases h

/-- Two splittings of one list at an unmistakable marker byte agree. -/
theorem append_marker_eq (P : Nat → Prop) (x : Nat) (hx : ¬P x) :
    ∀ (c u r1 r2 : List Nat), c ++ x :: r1 = u ++ x :: r2 →
      (∀ b ∈ c, P b) → (∀ b ∈ u, P b) → c = u := by
  intro c
  induction c with
  | nil =>
    intro u r1 r2 heq _ hu
    cases u with
    | nil => rfl
    | cons y u1 =>
      simp at heq
      exact absurd (heq.1 ▸ hu y (by simp)) hx
  | cons a c1 ih =>
    intro u r1 r2 heq hc hu
    cases u with
    | nil =>
      simp at heq
      exact absurd (heq.1 ▸ hc a (by simp)) hx
    | cons y u1 =>
      simp at heq
      rw [heq.1]
      rw [ih u1 r1 r2 heq.2 (fun b hb => hc b (by simp [hb])) (fun b hb => hu b (by simp [hb]))]

/-- One whitespace-preceded pair of a hexadecimal string: a whitespace run,
then two adjacent hex digits. -/
def hexGroupNats (g : List Nat × Nat × Nat) : List Nat := g.1 ++ [g.2.1, g.2.2]

def hexContentNats (gs : List (List Nat × Nat × Nat)) : List Nat :=
  (gs.map hexGroupNats).flatten

def decodeHexGroup (g : List Nat × Nat × Nat) : Nat := 16 * hexVal g.2.1 + hexVal g.2.2

theorem hexPairs_runs :
    ∀ (gs : List (List Nat × Nat × Nat)) (tail : List Nat) (pos : Nat),
      (∀ g ∈ gs, (∀ b ∈ g.1, is_whitespace b = true) ∧
        isHexDigitB g.2.1 = true ∧ isHexDigitB g.2.2 = true) →
      (∀ b, (tail.dropWhile is_whitespace).head? = some b → isHexDigitB b = false) →
      RunsTo (seqR white_space hex_char) (hexContentNats gs ++ tail) pos
        (gs.map decodeHexGroup) tail (pos + (hexContentNats gs).length) := by
  intro gs
  induction gs with
  | nil =>
    intro tail pos _ htail
    exact runsTo_nil (hexItem_err tail pos htail)
  | cons g gs ih =>
    intro tail pos hv htail
    rcases g with ⟨w, d1, d2⟩
    obtain ⟨hw, h1, h2⟩ := hv (w, d1, d2) (by simp)
    have hshape : hexContentNats ((w, d1, d2) :: gs) ++ tail =
        w ++ (d1 :: d2 :: (hexContentNats gs ++ tail)) := by
      simp [hexContentNats, hexGroupNats]
    rw [hshape]
    have hstep := hexItem_ok w (hexContentNats gs ++ tail) pos hw h1 h2
    have hrec := ih tail (pos + w.length + 2) (fun g hg => hv g (by simp [hg])) htail
    have h := runsTo_cons hstep (by simp; omega) hrec
    have heq : pos + w.length + 2 + (hexContentNats gs).length =
        pos + (hexContentNats ((w, d1, d2) :: gs)).length := by
      simp [hexContentNats, hexGroupNats]
      omega
    rw [heq] at h
    exact h

/-- C9: a hexadecimal string literal fails whenever the content between the
angle brackets (hex digits interleaved with whitespace) holds an odd number
of hex digits — the dangling digit is neither consumed as a half byte nor
ignored — and succeeds on every even number of hex digits arranged as
whitespace-preceded adjacent pairs, decoding each pair to one byte. -/
theorem claim_c9_hex_string :
    (∀ (c rest : List Nat) (pos : Nat),
      (∀ b ∈ c, is_whitespace b = true ∨ isHexDigitB b = true) →
      Odd (c.countP (fun b => isHexDigitB b)) →
      ¬ ∃ out r2 p2, hexadecimal_string (60 :: (c ++ 62 :: rest)) pos = .ok out r2 p2) ∧
    (∀ (gs : List (List Nat × Nat × Nat)) (wfin rest : List Nat) (pos : Nat),
      (∀ g ∈ gs, (∀ b ∈ g.1, is_whitespace b = true) ∧
        isHexDigitB g.2.1 = true ∧ isHexDigitB g.2.2 = true) →
      (∀ b ∈ wfin, is_whitespace b = true) →
      hexadecimal_string (60 :: (hexContentNats gs ++ (wfin ++ 62 :: rest))) pos =
        .ok (gs.map decodeHexGroup) rest
          (pos + 1 + (hexContentNats gs).length + wfin.length + 1)) := by
  constructor
  · rintro c rest pos hmem hodd ⟨out, r2, p2, h⟩
    unfold hexadecimal_string at h
    obtain ⟨l1t, p1t, bclose, hfirst, hclose⟩ := seqL_ok_inv h
    obtain ⟨a0, l0, p0, hsym, hrep⟩ := seqR_ok_inv hfirst
    obtain ⟨hl0, hp0⟩ : l0 = c ++ 62 :: rest ∧ p0 = pos + 1 := by
      have h2 := (symP_ok 60 (c ++ 62 :: rest) pos).symm.trans hsym
      cases h2; exact ⟨rfl, rfl⟩
    subst hl0
    unfold repeat0 at hrep
    obtain ⟨consumed, hcons, hcount, hmemc⟩ :=
      hexPairs_inv rfl ((c ++ 62 :: rest).length + 1) _ _ _ _ _ hrep
    obtain ⟨aw, lw, pw, hws, hsym2⟩ := seqR_ok_inv hclose
    obtain ⟨hlw, hpw⟩ : lw = l1t.dropWhile is_whitespace ∧
        pw = p1t + (l1t.takeWhile is_whitespace).length := by
      have h2 := (white_space_eq l1t p1t).symm.trans hws
      cases h2; exact ⟨rfl, rfl⟩
    have hlsplit : lw = 62 :: r2 := symP_ok_inv hsym2
    have hl1t : l1t = l1t.takeWhile is_whitespace ++ 62 :: r2 := by
      conv_lhs => rw [← List.takeWhile_append_dropWhile (p := is_whitespace) (l := l1t)]
      rw [← hlw, hlsplit]
    have hxeq : c ++ 62 :: rest = (consumed ++ l1t.takeWhile is_whitespace) ++ 62 :: r2 := by
      conv_lhs => rw [hcons, hl1t]
      simp
    have hceq : c = consumed ++ l1t.takeWhile is_whitespace := by
      refine append_marker_eq (fun b => is_whitespace b = true ∨ isHexDigitB b = true) 62
        (by decide) c _ rest r2 hxeq hmem ?_
      intro b hb
      rcases List.mem_append.mp hb with hb | hb
      · exact hmemc b hb
      · exact Or.inl (mem_takeWhile_cls hb)
    have hwr0 : (l1t.takeWhile is_whitespace).countP (fun b => isHexDigitB b) = 0 := by
      rw [List.countP_eq_zero]
      intro b hb hx
      have hnw := hex_not_ws hx
      rw [mem_takeWhile_cls hb] at hnw
      cases hnw
    rw [hceq, List.countP_append, hcount, hwr0] at hodd
    rcases hodd with ⟨k, hk⟩
    omega
  · intro gs wfin rest pos hv hwfin
    have htail : ∀ b, ((wfin ++ 62 :: rest).dropWhile is_whitespace).head? = some b →
        isHexDigitB b = false := by
      intro b hb
      have hdw := (takeWhile_append_eq wfin (62 :: rest) hwfin
        (by intro x hx; simp at hx; exact hx ▸ (by decide))).2
      rw [hdw] at hb
      simp at hb
      exact hb ▸ (by decide)
    have h1 : seqR (symP 60) (repeat0 (seqR white_space hex_char))
        (60 :: (hexContentNats gs ++ (wfin ++ 62 :: rest))) pos =
        .ok (gs.map decodeHexGroup) (wfin ++ 62 :: rest)
          (pos + 1 + (hexContentNats gs).length) := by
      rw [seqR_ok (symP_ok 60 (hexContentNats gs ++ (wfin ++ 62 :: rest)) pos)]
      exact repeat0_runsTo (hexPairs_runs gs (wfin ++ 62 :: rest) (pos + 1) hv htail)
    have h2 : seqR white_space (symP 62) (wfin ++ 62 :: rest)
        (pos + 1 + (hexContentNats gs).length) =
        .ok 62 rest (pos + 1 + (hexContentNats gs).length + wfin.length + 1) :=
      hexClose_ok wfin rest _ hwfin
    exact seqL_ok h1 h2

/-- Witness for C9: the single odd digit 1 makes the input < 1 > fail, and
the even two-digit content 1 2 decodes to the single byte 18. -/
theorem claim_c9_witness :
    (¬ ∃ out r2 p2, hexadecimal_string [60, 49, 62] 0 = .ok out r2 p2) ∧
    hexadecimal_string [60, 49, 50, 62] 0 = .ok [18] [] 4 := by
  constructor
  · exact claim_c9_hex_string.1 [49] [] 0 (by decide) (by decide)
  · have h := claim_c9_hex_string.2 [([], 49, 50)] [] [] 0
      (by intro g hg; simp at hg; subst hg; exact ⟨by simp, by decide, by decide⟩)
      (by simp)
    exact h

end LopdfNom
